import Mathlib

/-!
# Verification development for `static/index.js`

The script wires tab navigation and three forms to backend endpoints and
renders the returned status records.  This file embeds the script's
operations as Lean functions over an explicit page state and proves the
properties listed in the specification.

Conventions of the embedding:

* a JavaScript string is a `List Char` (`Str`);
* a JavaScript value read from a parsed JSON body is a `JsVal`;
* the elements the script looks up by id are named slots of `Page`
  (the host-page contract of the specification), the tab elements are a
  list of `Element`s in tree order;
* `alert`, `console.error`, programmatic clicks, dispatched events and
  `setTimeout` are recorded in the `World` around the page;
* a server exchange is the input of a handler: either it failed
  (`fetch` or `response.json()` rejected) or it produced a parsed body.
-/

namespace FormController

/-! ## Strings -/

/-- A JavaScript string, as its list of characters. -/
abbrev Str := List Char

/-- The characters removed by `String.prototype.trim`: the ECMAScript
`WhiteSpace` and `LineTerminator` code points. -/
def isJsWhitespace (c : Char) : Bool :=
  c = '\t' || c = '\n' || c.toNat = 0x0B || c.toNat = 0x0C || c = '\r' || c = ' '
    || c.toNat = 0xA0 || c.toNat = 0x1680
    || (0x2000 ≤ c.toNat && c.toNat ≤ 0x200A)
    || c.toNat = 0x2028 || c.toNat = 0x2029 || c.toNat = 0x202F
    || c.toNat = 0x205F || c.toNat = 0x3000 || c.toNat = 0xFEFF

/-- Drop the characters satisfying `p` from the end of a string. -/
def dropTrailing (p : Char → Bool) : Str → Str
  | [] => []
  | c :: cs =>
    match dropTrailing p cs with
    | [] => if p c then [] else [c]
    | r => c :: r

/-- The method `String.prototype.trim`. -/
def jsTrim (s : Str) : Str :=
  dropTrailing isJsWhitespace (s.dropWhile isJsWhitespace)

/-- The method `String.prototype.split` with a one-character separator: the
pieces between the separators, in order; a string with no separator is its
own single piece. -/
def jsSplit (sep : Char) : Str → List Str
  | [] => [[]]
  | c :: cs =>
    if c = sep then [] :: jsSplit sep cs
    else
      match jsSplit sep cs with
      | [] => [[c]]
      | p :: ps => (c :: p) :: ps

/-- The `keywords` entry of the business form data (index.js, lines 37-40):
`value.split(",").map((k) => k.trim())`. -/
def keywords (value : Str) : List Str :=
  (jsSplit ',' value).map jsTrim

/-- Join pieces with a separator character (`Array.prototype.join`). -/
def joinWith (sep : Char) : List Str → Str
  | [] => []
  | [p] => p
  | p :: q :: ps => p ++ sep :: joinWith sep (q :: ps)

/-- The method `String.prototype.replace` with a string pattern: the first
occurrence of `pat`, if there is one, is replaced by `rep`. -/
def replaceFirst (pat rep : Str) : Str → Str
  | [] => if pat.isEmpty then rep else []
  | c :: cs =>
    if pat.isPrefixOf (c :: cs) then rep ++ (c :: cs).drop pat.length
    else c :: replaceFirst pat rep cs

/-- ASCII whitespace, the separators of the tokens of a `class` attribute. -/
def isAsciiWhitespace (c : Char) : Bool :=
  c = ' ' || c = '\t' || c = '\n' || c.toNat = 0x0C || c = '\r'

/-- Split a string at every character satisfying `p`. -/
def splitWhere (p : Char → Bool) : Str → List Str
  | [] => [[]]
  | c :: cs =>
    if p c then [] :: splitWhere p cs
    else
      match splitWhere p cs with
      | [] => [[c]]
      | q :: qs => (c :: q) :: qs

/-- The class tokens of a `className`: its maximal runs of characters other
than ASCII whitespace. -/
def classTokens (className : Str) : List Str :=
  (splitWhere isAsciiWhitespace className).filter (fun t => !t.isEmpty)

/-! ## JavaScript values -/

/-- A value found in a parsed JSON body, or `undefined` for an absent
property.  A number is kept as its `ToString` text together with its
truthiness (it is falsy when it is zero), an object or array as its
`ToString` text: the script only compares values with string literals,
tests their truthiness, and converts them to strings. -/
inductive JsVal where
  | undefined
  | null
  | bool (b : Bool)
  | str (s : Str)
  | num (shown : Str) (nonzero : Bool)
  | obj (shown : Str)
  deriving DecidableEq, Repr

namespace JsVal

/-- Truthiness (`ToBoolean`), as tested by `v ? a : b`. -/
def truthy : JsVal → Bool
  | undefined => false
  | null => false
  | bool b => b
  | str s => !s.isEmpty
  | num _ nonzero => nonzero
  | obj _ => true

/-- The conversion `ToString`, as applied by string concatenation and by
template literals. -/
def toStr : JsVal → Str
  | undefined => "undefined".toList
  | null => "null".toList
  | bool true => "true".toList
  | bool false => "false".toList
  | str s => s
  | num shown _ => shown
  | obj shown => shown

/-- The conversion applied by the `value` setter of an input element:
`ToString`, except that `null` becomes the empty string. -/
def toValue : JsVal → Str
  | null => []
  | v => v.toStr

/-- A property is present when the object has it, that is when reading it
does not give `undefined`. -/
def present (v : JsVal) : Prop := v ≠ undefined

end JsVal

/-! ## Tab elements and `openTab` -/

/-- An element of the page as far as `openTab` is concerned: its `id`, its
`className` and the `display` property of its inline style. -/
structure Element where
  id : Str
  className : Str
  display : Str
  deriving DecidableEq, Repr

/-- The elements of the document, in tree order. -/
abbrev Doc := List Element

/-- Whether the element carries the class `cls`, that is whether
`getElementsByClassName(cls)` selects it. -/
def hasClass (cls : Str) (e : Element) : Bool :=
  decide (cls ∈ classTokens e.className)

/-- A tab-content element is shown unless its inline `display` is `none`. -/
def visible (e : Element) : Bool :=
  decide (e.display ≠ "none".toList)

/-- Item `n` of the live collection `getElementsByClassName(cls)`: the
position in the document of the element number `n` among those that carry
the class now; `none` when `n` is not below the collection's length. -/
def collectionItem (cls : Str) : Doc → Nat → Option Nat
  | [], _ => none
  | e :: es, n =>
    if hasClass cls e then
      match n with
      | 0 => some 0
      | m + 1 => (collectionItem cls es m).map (· + 1)
    else (collectionItem cls es n).map (· + 1)

/-- Apply `f` to the element at position `k`. -/
def updateAt (f : Element → Element) : Nat → Doc → Doc
  | _, [] => []
  | 0, e :: es => f e :: es
  | k + 1, e :: es => e :: updateAt f k es

/-- The loop `for (i = i0; i < coll.length; i++) coll[i] = f(coll[i])` over
the live collection of the elements of class `cls`; the collection is read
again at every turn, as a live `HTMLCollection` is.  The index grows at
every turn and stays below the number of elements, so a fuel of
`d.length` turns is enough (see `forEachLive_fuel`). -/
def forEachLive (cls : Str) (f : Element → Element) : Nat → Nat → Doc → Doc
  | 0, _, d => d
  | fuel + 1, i, d =>
    match collectionItem cls d i with
    | none => d
    | some k => forEachLive cls f fuel (i + 1) (updateAt f k d)

/-- The document with `f` applied to the elements of class `cls` from the
one numbered `n` on: what the loop has still to do when its index is `n` and
no element leaves the collection. -/
def applyFrom (cls : Str) (f : Element → Element) : Nat → Doc → Doc
  | _, [] => []
  | n, e :: es =>
    if hasClass cls e then
      match n with
      | 0 => f e :: applyFrom cls f 0 es
      | m + 1 => e :: applyFrom cls f m es
    else e :: applyFrom cls f n es

/-- The method `document.getElementById`: the position of the first element
with that id; the empty string is the id of no element. -/
def getElementById : Doc → Str → Option Nat
  | [], _ => none
  | e :: es, id =>
    if id ≠ [] ∧ e.id = id then some 0
    else (getElementById es id).map (· + 1)

/-- Body of the first loop of `openTab`: `style.display = "none"`. -/
def hide (e : Element) : Element :=
  { e with display := "none".toList }

/-- Body of the second loop of `openTab`:
`className = className.replace(" active", "")`. -/
def unmark (e : Element) : Element :=
  { e with className := replaceFirst " active".toList [] e.className }

/-- Line 11 of `openTab`: `style.display = "block"`. -/
def reveal (e : Element) : Element :=
  { e with display := "block".toList }

/-- Line 12 of `openTab`: `className += " active"`. -/
def mark (e : Element) : Element :=
  { e with className := e.className ++ " active".toList }

deriving instance DecidableEq for Except

/-- The function `openTab(evt, tabName)` (index.js, lines 1-13).
`currentTarget` is the position in the document of `evt.currentTarget`; a
position outside the document stands for an event without a current
target.  The result is `ok` with the new document when the function
returns, and `error` with the document as the function left it when line 11
or line 12 throws a `TypeError` (no element has the id `tabName`, or there
is no current target). -/
def openTab (d : Doc) (currentTarget : Nat) (tabName : Str) : Except Doc Doc :=
  let d1 := forEachLive "tabcontent".toList hide d.length 0 d
  let d2 := forEachLive "tablinks".toList unmark d1.length 0 d1
  match getElementById d2 tabName with
  | none => .error d2
  | some k =>
    let d3 := updateAt reveal k d2
    if currentTarget < d3.length then .ok (updateAt mark currentTarget d3)
    else .error d3

/-- The document a call of `openTab` leaves behind, whether it returned or
threw. -/
def docAfter : Except Doc Doc → Doc
  | .ok d => d
  | .error d => d

/-- A class name as `openTab` itself writes it: a text `w` free of the word
`active`, alone or followed by the marker `" active"`. -/
def markedOnce (className : Str) : Prop :=
  ∃ w : Str, ¬ "active".toList <:+: w ∧
    (className = w ∨ className = w ++ " active".toList)

/-- A tab button is well formed when its class name is marked at most once;
elements that are no tab buttons are not constrained. -/
def wellFormed (e : Element) : Prop :=
  hasClass "tablinks".toList e = true → markedOnce e.className

/-- What the two loops of `openTab` make of an element when no element
leaves a collection: a tab-content element is hidden and a tab button loses
its first marker. -/
def settle (e : Element) : Element :=
  { id := e.id
    className :=
      if hasClass "tablinks".toList e then replaceFirst " active".toList [] e.className
      else e.className
    display := if hasClass "tabcontent".toList e then "none".toList else e.display }

/-- What `openTab` makes of the element at position `j` when the element
with the id `tabName` is at position `k` and the current target at position
`t`. -/
def settleAt (k t : Option Nat) (j : Nat) (e : Element) : Element :=
  let e1 := settle e
  let e2 := if k = some j then reveal e1 else e1
  if t = some j then mark e2 else e2

/-! ## Page state and the world around it -/

/-- The parts of the page the handlers read and write; every element the
script looks up by id is a slot here. -/
structure Page where
  /-- The tab elements. -/
  doc : Doc
  /-- Value of the hidden input `business_id`. -/
  business_id : Str
  /-- Value of the input `check_business_id`. -/
  check_business_id : Str
  /-- Class list of `csvUploadSection`. -/
  csvUploadSection : List Str
  /-- Class list of `statusResults`. -/
  statusResults : List Str
  /-- Class list of the button `refreshStatus`. -/
  refreshStatus : List Str
  /-- Class list of the button `checkListings`. -/
  checkListings : List Str
  /-- The text last assigned to the property `innerHTML` of `statusList`; the
  children of the element are the parse of this text. -/
  statusList : Str
  deriving DecidableEq, Repr

/-- What the script triggers on other elements of the page. -/
inductive Action where
  /-- The call `click()` on `button.tablinks:nth-child(2)`. -/
  | clickStatusTab
  /-- The call `dispatchEvent(new Event("submit"))` on `statusCheckForm`. -/
  | submitStatusCheck
  deriving DecidableEq, Repr

/-- A pending `setTimeout` callback. -/
structure Timer where
  delay : Nat
  action : Action
  deriving DecidableEq, Repr

/-- The page together with the record of what the script did around it. -/
structure World where
  page : Page
  /-- The messages passed to `alert`, oldest first. -/
  alerts : List Str
  /-- The labels passed to `console.error`, oldest first. -/
  console : List Str
  /-- The clicks and events the script triggered, oldest first. -/
  triggered : List Action
  /-- The pending timers, oldest first. -/
  timers : List Timer
  deriving DecidableEq, Repr

/-- Outcome of `fetch` followed by `response.json()`: either one of the two
rejected, or the body was parsed.  A parsed body is a JSON object, as the
endpoints of the specification return it; its properties may be absent or
hold any value. -/
inductive Exchange (α : Type) where
  | failure
  | parsed (data : α)
  deriving DecidableEq, Repr

/-- Body of `POST /submit-business-data`. -/
structure BusinessResponse where
  status : JsVal
  business_id : JsVal
  deriving DecidableEq, Repr

/-- Body of `POST /upload-csv`. -/
structure CsvResponse where
  status : JsVal
  message : JsVal
  deriving DecidableEq, Repr

/-- Body of `POST /check-listings/{businessId}`. -/
structure ListingsResponse where
  status : JsVal
  deriving DecidableEq, Repr

/-- One entry of the `statuses` array. -/
structure StatusRecord where
  directory_url : JsVal
  status : JsVal
  listing_status : JsVal
  last_checked : JsVal
  created_at : JsVal
  updated_at : JsVal
  deriving DecidableEq, Repr

/-- Body of `GET /status/{businessId}`; `statuses` is `none` when the
property is absent. -/
structure StatusResponse where
  statuses : Option (List StatusRecord)
  deriving DecidableEq, Repr

/-- The method `classList.remove(token)`. -/
def classListRemove (token : Str) (classList : List Str) : List Str :=
  classList.filter (fun t => t ≠ token)

/-- Whether a class list holds the token `hidden`. -/
def isHidden (classList : List Str) : Prop :=
  "hidden".toList ∈ classList

instance (classList : List Str) : Decidable (isHidden classList) :=
  inferInstanceAs (Decidable ("hidden".toList ∈ classList))

/-- The message of the three `catch` blocks. -/
def genericAlert : Str := "An error occurred. Please try again.".toList

/-- The call `alert(msg)`. -/
def alert (msg : Str) (w : World) : World :=
  { w with alerts := w.alerts ++ [msg] }

/-- The `catch` block shared by the handlers:
`console.error("Error:", error); alert("An error occurred. Please try again.")`. -/
def catchBlock (w : World) : World :=
  alert genericAlert { w with console := w.console ++ ["Error:".toList] }

/-- The alerts shown between the world `w` and the later world `w2`. -/
def alertsShown (w w2 : World) : List Str :=
  w2.alerts.drop w.alerts.length

/-- The `try` block of the submit handler of `businessDataForm`
(index.js, lines 50-74), given the outcome of the exchange. -/
def businessDataSubmit (w : World) : Exchange BusinessResponse → World
  | .failure => catchBlock w
  | .parsed data =>
    if data.status = .str "success".toList then
      let w1 := alert
        ("Business information saved successfully! Business ID: ".toList
          ++ data.business_id.toStr) w
      let p1 := { w1.page with business_id := data.business_id.toValue }
      { w1 with page :=
          { p1 with csvUploadSection := classListRemove "hidden".toList p1.csvUploadSection } }
    else w

/-- The `try` block of the submit handler of `csvUploadForm`
(index.js, lines 89-116), given the outcome of the exchange. -/
def csvUploadSubmit (w : World) : Exchange CsvResponse → World
  | .failure => catchBlock w
  | .parsed data =>
    if data.status = .str "success".toList then
      let w1 := alert ("CSV uploaded and processing started! ".toList ++ data.message.toStr) w
      let w2 := { w1 with page := { w1.page with check_business_id := w1.page.business_id } }
      { w2 with triggered := w2.triggered ++ [Action.clickStatusTab, Action.submitStatusCheck] }
    else w

/-- The click handler of `refreshStatus` (index.js, lines 201-203). -/
def refreshStatusClick (w : World) : World :=
  { w with triggered := w.triggered ++ [Action.submitStatusCheck] }

/-- The click handler of `checkListings` (index.js, lines 205-231), given the
outcome of the exchange. -/
def checkListingsClick (w : World) : Exchange ListingsResponse → World
  | .failure => catchBlock w
  | .parsed data =>
    if data.status = .str "success".toList then
      let w1 := alert "Listing check triggered! This may take a few minutes.".toList w
      { w1 with timers := w1.timers ++ [{ delay := 10000, action := Action.submitStatusCheck }] }
    else w

/-- A series of clicks on `checkListings`, one exchange each. -/
def checkListingsClicks (w : World) (xs : List (Exchange ListingsResponse)) : World :=
  xs.foldl checkListingsClick w

/-! ## Rendering of the status records -/

/-- The text `new Date(v).toLocaleString()`.  For `undefined` the date is
invalid and the text is `Invalid Date`; for the other values the text depends
on the locale and the time zone and is given by `fmt`. -/
def localeString (fmt : JsVal → Str) : JsVal → Str
  | .undefined => "Invalid Date".toList
  | v => fmt v

/-- The constant `statusClass` (index.js, lines 145-150). -/
def statusClass (status : JsVal) : Str :=
  if status = .str "success".toList then "status-success".toList
  else if status = .str "pending".toList then "status-pending".toList
  else "status-error".toList

/-- The green label. -/
def liveLabel : Str := "<span style=\"color: green;\">Live</span>".toList

/-- The orange label. -/
def potentialLabel : Str := "<span style=\"color: orange;\">Potentially Live</span>".toList

/-- The red label. -/
def notFoundLabel : Str := "<span style=\"color: red;\">Not Found</span>".toList

/-- The label chosen for a `listing_status` (index.js, lines 152-162). -/
def listingLabel (listing_status : JsVal) : Str :=
  if listing_status = .str "live".toList then liveLabel
  else if listing_status = .str "potential".toList then potentialLabel
  else notFoundLabel

/-- The variable `listingStatus` (index.js, lines 152-162). -/
def listingStatus (listing_status : JsVal) : Str :=
  "<strong>Listing Status:</strong> ".toList ++ (listingLabel listing_status ++ "<br>".toList)

/-- Start of the line of the last check. -/
def lastCheckedMark : Str := "<strong>Last Checked:</strong>".toList

/-- Start of the line of the submission. -/
def submittedMark : Str := "<strong>Submitted:</strong>".toList

/-- Start of the line of the update. -/
def updatedMark : Str := "<strong>Updated:</strong>".toList

/-- The constant `lastChecked` (index.js, lines 164-168). -/
def lastChecked (fmt : JsVal → Str) (last_checked : JsVal) : Str :=
  if last_checked.truthy then
    lastCheckedMark ++ (' ' :: (localeString fmt last_checked ++ "<br>".toList))
  else []

/-- The interpolation of lines 181-187. -/
def updatedLine (fmt : JsVal → Str) (updated_at : JsVal) : Str :=
  if updated_at.truthy then
    updatedMark ++ (' ' :: (localeString fmt updated_at ++ "<br>".toList))
  else []

/-- A line break of the template followed by `n` spaces of indentation. -/
def indent (n : Nat) : Str := '\n' :: List.replicate n ' '

/-- The template literal appended for one record (index.js, lines 170-189). -/
def renderBlock (fmt : JsVal → Str) (r : StatusRecord) : Str :=
  indent 28 ++ ("<div class=\"status-item ".toList ++ (statusClass r.status ++ ("\">".toList ++
  (indent 32 ++ ("<strong>URL:</strong> ".toList ++ (r.directory_url.toStr ++ ("<br>".toList ++
  (indent 32 ++ ("<strong>Status:</strong> ".toList ++ (r.status.toStr ++ ("<br>".toList ++
  (indent 32 ++ (listingStatus r.listing_status ++
  (indent 32 ++ (lastChecked fmt r.last_checked ++
  (indent 32 ++ (submittedMark ++ (' ' :: (localeString fmt r.created_at ++ ("<br>".toList ++
  (indent 32 ++ (updatedLine fmt r.updated_at ++
  (indent 28 ++ ("</div>".toList ++
  indent 24))))))))))))))))))))))))

/-- The message for an empty list. -/
def noSubmissions : Str := "<p>No submissions found for this business ID.</p>".toList

/-- The getter `innerHTML`: the serialization of the children of the
element, which are the parse of the text last assigned.  An element emptied
by the assignment of the empty string reads back as the empty string; for
every other text the answer of the browser is `serialized text`. -/
def readInnerHTML (serialized : Str → Str) (assigned : Str) : Str :=
  if assigned = [] then [] else serialized assigned

/-- One turn of the render loop (index.js, line 170):
`statusList.innerHTML += block`, that is the assignment of what the getter
reads back followed by the block. -/
def appendBlock (serialized : Str → Str) (fmt : JsVal → Str) (assigned : Str)
    (status : StatusRecord) : Str :=
  readInnerHTML serialized assigned ++ renderBlock fmt status

/-- The text the render loop assigns last for the records `rs`, from the
emptied list on. -/
def renderAll (serialized : Str → Str) (fmt : JsVal → Str) (rs : List StatusRecord) : Str :=
  rs.foldl (appendBlock serialized fmt) []

/-- The `try` block of the submit handler of `statusCheckForm`
(index.js, lines 126-198), given the outcome of the exchange. -/
def statusCheckSubmit (serialized : Str → Str) (fmt : JsVal → Str) (w : World) :
    Exchange StatusResponse → World
  | .failure => catchBlock w
  | .parsed data =>
    let nonEmpty : Bool :=
      match data.statuses with
      | some (_ :: _) => true
      | _ => false
    let p1 := { w.page with statusResults := classListRemove "hidden".toList w.page.statusResults }
    let p2 :=
      if nonEmpty then
        { p1 with
          refreshStatus := classListRemove "hidden".toList p1.refreshStatus
          checkListings := classListRemove "hidden".toList p1.checkListings }
      else p1
    let p3 := { p2 with statusList := [] }
    let p4 :=
      if nonEmpty then
        (data.statuses.getD []).foldl
          (fun p status =>
            { p with statusList := appendBlock serialized fmt p.statusList status }) p3
      else { p3 with statusList := noSubmissions }
    { w with page := p4 }

/-! ## Occurrences of a text in a rendered block -/

/-- Whether `needle` and `s` differ somewhere along their common length. -/
def clashes : Str → Str → Bool
  | n :: ns, c :: cs => n != c || clashes ns cs
  | _, _ => false

/-- Whether no occurrence of `needle` can start inside `s`, whatever follows
`s`. -/
def neverStarts (needle : Str) : Str → Bool
  | [] => true
  | c :: cs => clashes needle (c :: cs) && neverStarts needle cs

/-- The three labels that occur in a text. -/
def labelsIn (block : Str) : List Str :=
  [liveLabel, potentialLabel, notFoundLabel].filter (fun l => decide (l <:+: block))

/-- The interpolated texts of a record hold no markup: no `<` in the URL, in
the status, or in a formatted date. -/
def plainText (fmt : JsVal → Str) (r : StatusRecord) : Prop :=
  '<' ∉ r.directory_url.toStr ∧ '<' ∉ r.status.toStr ∧ ∀ v, '<' ∉ fmt v

/-- The pieces of the last-checked line. -/
def lastCheckedSegments (fmt : JsVal → Str) (last_checked : JsVal) : List Str :=
  if last_checked.truthy then
    [lastCheckedMark, [' '], localeString fmt last_checked, "<br>".toList]
  else []

/-- The pieces of the updated line. -/
def updatedSegments (fmt : JsVal → Str) (updated_at : JsVal) : List Str :=
  if updated_at.truthy then
    [updatedMark, [' '], localeString fmt updated_at, "<br>".toList]
  else []

/-- The pieces of a block before the chosen label. -/
def segmentsBefore (r : StatusRecord) : List Str :=
  [indent 28, "<div class=\"status-item ".toList, statusClass r.status, "\">".toList,
    indent 32, "<strong>URL:</strong> ".toList, r.directory_url.toStr, "<br>".toList,
    indent 32, "<strong>Status:</strong> ".toList, r.status.toStr, "<br>".toList,
    indent 32, "<strong>Listing Status:</strong> ".toList]

/-- The pieces of a block after the chosen label. -/
def segmentsAfter (fmt : JsVal → Str) (r : StatusRecord) : List Str :=
  ["<br>".toList, indent 32] ++ (lastCheckedSegments fmt r.last_checked ++
    ([indent 32, submittedMark, [' '], localeString fmt r.created_at, "<br>".toList, indent 32]
      ++ (updatedSegments fmt r.updated_at ++ [indent 28, "</div>".toList, indent 24])))

/-- The constant pieces of the template other than the three timestamp
marks. -/
def templateConstants : List Str :=
  [indent 28, "<div class=\"status-item ".toList, "\">".toList, indent 32,
    "<strong>URL:</strong> ".toList, "<br>".toList, "<strong>Status:</strong> ".toList,
    "<strong>Listing Status:</strong> ".toList, [' '], "</div>".toList, indent 24]

/-- A record without any property. -/
def emptyRecord : StatusRecord :=
  { directory_url := .undefined, status := .undefined, listing_status := .undefined,
    last_checked := .undefined, created_at := .undefined, updated_at := .undefined }

/-- A record whose URL text holds the markup of the green label. -/
def markupRecord : StatusRecord :=
  { emptyRecord with directory_url := .str liveLabel, listing_status := .str "potential".toList }

/-- A getter for the examples.  It gives what HTML serialization gives for
markup whose tags are those of the template and whose texts hold no character
reference: outside a tag `&`, `>` and the no-break space are written as
`&amp;`, `&gt;` and `&nbsp;`, and everything else is written as it stands.
`inTag` tells whether the text starts inside a tag. -/
def escapeText : Bool → Str → Str
  | _, [] => []
  | inTag, c :: cs =>
    if inTag then c :: escapeText (c != '>') cs
    else if c = '&' then "&amp;".toList ++ escapeText false cs
    else if c = '>' then "&gt;".toList ++ escapeText false cs
    else if c.toNat = 0xA0 then "&nbsp;".toList ++ escapeText false cs
    else c :: escapeText (c == '<') cs

/-- The getter of the examples, on a text that starts outside a tag. -/
def exampleGetter : Str → Str := escapeText false

/-- A record of a successful, live submission whose URL holds a `&`. -/
def queryRecord : StatusRecord :=
  { directory_url := .str "https://example.org/?a=1&b=2".toList,
    status := .str "success".toList, listing_status := .str "live".toList,
    last_checked := .undefined, created_at := .str "2025-01-01".toList,
    updated_at := .undefined }

/-- A date format that writes the same date for every value. -/
def fixedFormat : JsVal → Str := fun _ => "1/1/2025, 12:00:00 AM".toList

/-- A page as it is first loaded: two tabs, the first one open, the
CSV-upload section, the results section and the two buttons hidden. -/
def freshPage : Page :=
  { doc :=
      [ { id := "b1".toList, className := "tablinks active".toList, display := [] },
        { id := "b2".toList, className := "tablinks".toList, display := [] },
        { id := "submit".toList, className := "tabcontent".toList, display := "block".toList },
        { id := "status".toList, className := "tabcontent".toList, display := "none".toList } ]
    business_id := []
    check_business_id := []
    csvUploadSection := ["hidden".toList]
    statusResults := ["hidden".toList]
    refreshStatus := ["btn".toList, "hidden".toList]
    checkListings := ["btn".toList, "hidden".toList]
    statusList := [] }

/-- A document with one tab-content element and two tab buttons, the second
button marked twice. -/
def twiceMarked : Doc :=
  [ { id := "home".toList, className := "tabcontent".toList, display := "block".toList },
    { id := "b1".toList, className := "tablinks".toList, display := [] },
    { id := "b2".toList, className := "tablinks active active".toList, display := [] } ]

/-- The world around a page first loaded: nothing shown, nothing pending. -/
def freshWorld : World :=
  { page := freshPage, alerts := [], console := [], triggered := [], timers := [] }

/-- A record of a successful, live submission. -/
def liveRecord : StatusRecord :=
  { directory_url := .str "https://example.org".toList, status := .str "success".toList,
    listing_status := .str "live".toList, last_checked := .undefined,
    created_at := .str "2025-01-01".toList, updated_at := .undefined }

/-! # Theorems -/

/-! ### Facts about splitting and trimming -/


theorem jsSplit_ne_nil (sep : Char) (s : Str) : jsSplit sep s ≠ [] := by
  induction s with
  | nil => simp [jsSplit]
  | cons c cs ih =>
    unfold jsSplit
    split
    · simp
    · split <;> simp

theorem jsSplit_length (sep : Char) (s : Str) :
    (jsSplit sep s).length = s.count sep + 1 := by
  induction s with
  | nil => simp [jsSplit]
  | cons c cs ih =>
    unfold jsSplit
    by_cases h : c = sep
    · subst h
      simp [ih]
    · have hc : (c == sep) = false := by simpa using h
      rw [if_neg h, List.count_cons, hc]
      cases hs : jsSplit sep cs with
      | nil => exact absurd hs (jsSplit_ne_nil sep cs)
      | cons p ps =>
        rw [hs] at ih
        simpa using ih

theorem joinWith_jsSplit (sep : Char) (s : Str) : joinWith sep (jsSplit sep s) = s := by
  induction s with
  | nil => simp [jsSplit, joinWith]
  | cons c cs ih =>
    unfold jsSplit
    by_cases h : c = sep
    · subst h
      rw [if_pos rfl]
      cases hs : jsSplit c cs with
      | nil => exact absurd hs (jsSplit_ne_nil c cs)
      | cons p ps =>
        rw [hs] at ih
        simp [joinWith, ih]
    · rw [if_neg h]
      cases hs : jsSplit sep cs with
      | nil => exact absurd hs (jsSplit_ne_nil sep cs)
      | cons p ps =>
        rw [hs] at ih
        cases ps with
        | nil =>
          simp only [joinWith] at ih ⊢
          rw [ih]
        | cons q qs =>
          simp only [joinWith] at ih ⊢
          rw [← ih]
          simp

theorem jsSplit_no_sep (sep : Char) (s : Str) : ∀ p ∈ jsSplit sep s, sep ∉ p := by
  induction s with
  | nil => simp [jsSplit]
  | cons c cs ih =>
    unfold jsSplit
    by_cases h : c = sep
    · subst h
      rw [if_pos rfl]
      intro p hp
      rcases List.mem_cons.mp hp with rfl | hp
      · simp
      · exact ih p hp
    · rw [if_neg h]
      cases hs : jsSplit sep cs with
      | nil => exact absurd hs (jsSplit_ne_nil sep cs)
      | cons q qs =>
        rw [hs] at ih
        intro p hp
        rcases List.mem_cons.mp hp with rfl | hp
        · intro hmem
          rcases List.mem_cons.mp hmem with e | hmem
          · exact h e.symm
          · exact ih q (List.mem_cons_self _ _) hmem
        · exact ih p (List.mem_cons_of_mem _ hp)

theorem dropTrailing_spec (p : Char → Bool) (s : Str) :
    ∃ t, s = dropTrailing p s ++ t ∧ (∀ c ∈ t, p c = true) ∧
      ∀ c, (dropTrailing p s).getLast? = some c → p c = false := by
  induction s with
  | nil => exact ⟨[], by simp [dropTrailing]⟩
  | cons c cs ih =>
    obtain ⟨t, ht, hall, hlast⟩ := ih
    unfold dropTrailing
    cases hr : dropTrailing p cs with
    | nil =>
      rw [hr] at ht hlast
      have ht2 : cs = t := by simpa using ht
      by_cases hc : p c = true
      · refine ⟨c :: cs, by simp [hc], ?_, by simp [hc]⟩
        intro x hx
        rcases List.mem_cons.mp hx with rfl | hx
        · exact hc
        · exact hall x (ht2 ▸ hx)
      · refine ⟨t, by simp [hc, ht2], hall, ?_⟩
        intro x hx
        simp only [hc] at hx
        simp at hx
        subst hx
        simpa using hc
    | cons r rs =>
      rw [hr] at ht hlast
      refine ⟨t, by simp [ht], hall, ?_⟩
      intro x hx
      apply hlast x
      simpa [List.getLast?_cons_cons] using hx


theorem jsTrim_spec (p : Str) :
    ∃ l r, p = l ++ jsTrim p ++ r ∧ (∀ c ∈ l, isJsWhitespace c = true) ∧
      (∀ c ∈ r, isJsWhitespace c = true) ∧
      (∀ c, (jsTrim p).head? = some c → isJsWhitespace c = false) ∧
      (∀ c, (jsTrim p).getLast? = some c → isJsWhitespace c = false) := by
  obtain ⟨t, ht, hall, hlast⟩ := dropTrailing_spec isJsWhitespace (p.dropWhile isJsWhitespace)
  refine ⟨p.takeWhile isJsWhitespace, t, ?_, ?_, hall, ?_, hlast⟩
  · unfold jsTrim
    rw [List.append_assoc, ← ht, List.takeWhile_append_dropWhile]
  · intro c hc
    exact List.mem_takeWhile_imp hc
  · intro c hc
    unfold jsTrim at hc
    have hd : (p.dropWhile isJsWhitespace).head? = some c := by
      rw [ht]
      cases hr : dropTrailing isJsWhitespace (p.dropWhile isJsWhitespace) with
      | nil => rw [hr] at hc; simp at hc
      | cons a as => rw [hr] at hc; simpa using hc
    have := List.head?_dropWhile_not isJsWhitespace p
    rw [hd] at this
    simpa using this

/-- C1: the keywords are the pieces of the input between its commas, each
trimmed of leading and trailing whitespace, in order; there are as many as
commas plus one, so the list is never empty; `"a, b ,c"` gives
`["a","b","c"]` and the empty input gives one empty keyword. -/
theorem keywords_split_trim (s : Str) :
    (∃ pieces : List Str, joinWith ',' pieces = s ∧ (∀ p ∈ pieces, ',' ∉ p) ∧
        keywords s = pieces.map jsTrim) ∧
      (∀ p : Str, ∃ l r, p = l ++ jsTrim p ++ r ∧ (∀ c ∈ l, isJsWhitespace c = true) ∧
        (∀ c ∈ r, isJsWhitespace c = true) ∧
        (∀ c, (jsTrim p).head? = some c → isJsWhitespace c = false) ∧
        (∀ c, (jsTrim p).getLast? = some c → isJsWhitespace c = false)) ∧
      (keywords s).length = s.count ',' + 1 ∧
      keywords s ≠ [] ∧
      keywords "a, b ,c".toList = ["a".toList, "b".toList, "c".toList] ∧
      keywords [] = [[]] := by
  refine ⟨⟨jsSplit ',' s, joinWith_jsSplit ',' s, jsSplit_no_sep ',' s, rfl⟩, jsTrim_spec, ?_, ?_,
    by decide, by decide⟩
  · simp [keywords, jsSplit_length]
  · intro h
    have : (keywords s).length = s.count ',' + 1 := by simp [keywords, jsSplit_length]
    rw [h] at this
    simp at this

/-! ### The handlers -/

theorem not_isHidden_classListRemove (l : List Str) :
    ¬ isHidden (classListRemove "hidden".toList l) := by
  simp [isHidden, classListRemove, List.mem_filter]

theorem alertsShown_self (w : World) : alertsShown w w = [] := by
  simp [alertsShown]

theorem alertsShown_catchBlock (w : World) : alertsShown w (catchBlock w) = [genericAlert] := by
  simp [alertsShown, catchBlock, alert]

theorem businessDataSubmit_other (w : World) (data : BusinessResponse)
    (h : data.status ≠ .str "success".toList) : businessDataSubmit w (.parsed data) = w := by
  simp only [businessDataSubmit]
  rw [if_neg h]

theorem csvUploadSubmit_other (w : World) (data : CsvResponse)
    (h : data.status ≠ .str "success".toList) : csvUploadSubmit w (.parsed data) = w := by
  simp only [csvUploadSubmit]
  rw [if_neg h]

theorem checkListingsClick_other (w : World) (data : ListingsResponse)
    (h : data.status ≠ .str "success".toList) : checkListingsClick w (.parsed data) = w := by
  simp only [checkListingsClick]
  rw [if_neg h]

theorem businessDataSubmit_alerts (w : World) (data : BusinessResponse)
    (h : data.status = .str "success".toList) :
    alertsShown w (businessDataSubmit w (.parsed data))
      = ["Business information saved successfully! Business ID: ".toList
          ++ data.business_id.toStr] := by
  simp only [businessDataSubmit]
  rw [if_pos h]
  simp [alertsShown, alert]

theorem csvUploadSubmit_alerts (w : World) (data : CsvResponse)
    (h : data.status = .str "success".toList) :
    alertsShown w (csvUploadSubmit w (.parsed data))
      = ["CSV uploaded and processing started! ".toList ++ data.message.toStr] := by
  simp only [csvUploadSubmit]
  rw [if_pos h]
  simp [alertsShown, alert]

theorem checkListingsClick_alerts (w : World) (data : ListingsResponse)
    (h : data.status = .str "success".toList) :
    alertsShown w (checkListingsClick w (.parsed data))
      = ["Listing check triggered! This may take a few minutes.".toList] := by
  simp only [checkListingsClick]
  rw [if_pos h]
  simp [alertsShown, alert]

theorem checkListingsClick_timers (w : World) (data : ListingsResponse)
    (h : data.status = .str "success".toList) :
    (checkListingsClick w (.parsed data)).timers
      = w.timers ++ [{ delay := 10000, action := Action.submitStatusCheck }] := by
  simp only [checkListingsClick]
  rw [if_pos h]
  rfl

theorem render_foldl (serialized : Str → Str) (fmt : JsVal → Str) (rs : List StatusRecord)
    (p : Page) :
    rs.foldl (fun p status =>
        { p with statusList := appendBlock serialized fmt p.statusList status }) p
      = { p with statusList := rs.foldl (appendBlock serialized fmt) p.statusList } := by
  induction rs generalizing p with
  | nil => rfl
  | cons r rs ih => simp only [List.foldl_cons, ih]

theorem statusList_of_records (serialized : Str → Str) (fmt : JsVal → Str) (w : World)
    (data : StatusResponse) (r : StatusRecord) (rs : List StatusRecord)
    (h : data.statuses = some (r :: rs)) :
    (statusCheckSubmit serialized fmt w (.parsed data)).page.statusList
      = renderAll serialized fmt (r :: rs) := by
  simp only [statusCheckSubmit, h, Option.getD_some, if_true]
  rw [render_foldl]
  rfl

theorem renderAll_concat (serialized : Str → Str) (fmt : JsVal → Str)
    (before : List StatusRecord) (last : StatusRecord) :
    renderAll serialized fmt (before ++ [last])
      = readInnerHTML serialized (renderAll serialized fmt before) ++ renderBlock fmt last := by
  unfold renderAll
  rw [List.foldl_append]
  rfl

theorem foldl_appendBlock_fixed (serialized : Str → Str) (fmt : JsVal → Str)
    (rs : List StatusRecord) (acc : Str)
    (hfix : ∀ i, i < rs.length →
      readInnerHTML serialized (acc ++ ((rs.take i).map (renderBlock fmt)).flatten)
        = acc ++ ((rs.take i).map (renderBlock fmt)).flatten) :
    rs.foldl (appendBlock serialized fmt) acc = acc ++ (rs.map (renderBlock fmt)).flatten := by
  induction rs generalizing acc with
  | nil => simp
  | cons r rs ih =>
    have h0 := hfix 0 (by simp)
    simp only [List.take_zero, List.map_nil, List.flatten_nil, List.append_nil] at h0
    have hstep : appendBlock serialized fmt acc r = acc ++ renderBlock fmt r := by
      unfold appendBlock
      rw [h0]
    rw [List.foldl_cons, hstep, ih (acc ++ renderBlock fmt r)]
    · simp only [List.map_cons, List.flatten_cons, List.append_assoc]
    · intro i hi
      have := hfix (i + 1) (by simpa using hi)
      simpa only [List.take_succ_cons, List.map_cons, List.flatten_cons, List.append_assoc]
        using this

theorem renderAll_fixed (serialized : Str → Str) (fmt : JsVal → Str) (rs : List StatusRecord)
    (hfix : ∀ i, i < rs.length →
      readInnerHTML serialized (((rs.take i).map (renderBlock fmt)).flatten)
        = ((rs.take i).map (renderBlock fmt)).flatten) :
    renderAll serialized fmt rs = (rs.map (renderBlock fmt)).flatten := by
  have := foldl_appendBlock_fixed serialized fmt rs [] (by simpa using hfix)
  simpa [renderAll] using this

/-- C3: when the parsed response reports `success`, the CSV-upload section is
not hidden afterwards and the hidden field holds the returned business id;
for any other status nothing changes (a hidden section stays hidden) and no
alert is shown. -/
theorem businessDataSubmit_outcome (w : World) (data : BusinessResponse) :
    (data.status = .str "success".toList →
        ¬ isHidden (businessDataSubmit w (.parsed data)).page.csvUploadSection ∧
        (businessDataSubmit w (.parsed data)).page.business_id = data.business_id.toValue ∧
        (∀ id, data.business_id = .str id →
          (businessDataSubmit w (.parsed data)).page.business_id = id)) ∧
      (data.status ≠ .str "success".toList →
        (businessDataSubmit w (.parsed data)).page.csvUploadSection = w.page.csvUploadSection ∧
        (businessDataSubmit w (.parsed data)).page.business_id = w.page.business_id ∧
        (isHidden w.page.csvUploadSection →
          isHidden (businessDataSubmit w (.parsed data)).page.csvUploadSection) ∧
        alertsShown w (businessDataSubmit w (.parsed data)) = []) := by
  constructor
  · intro h
    simp only [businessDataSubmit]
    rw [if_pos h]
    refine ⟨not_isHidden_classListRemove _, rfl, ?_⟩
    intro id hid
    show data.business_id.toValue = id
    rw [hid]
    rfl
  · intro h
    rw [businessDataSubmit_other w data h]
    exact ⟨rfl, rfl, id, alertsShown_self w⟩

/-- C5: when the parsed status response has an empty or absent `statuses`
list, the status list holds exactly the no-submissions message, the results
section is revealed, and the refresh and check-listings buttons are left as
they were, so hidden buttons remain hidden. -/
theorem statusCheckSubmit_empty (serialized : Str → Str) (fmt : JsVal → Str) (w : World)
    (data : StatusResponse)
    (h : data.statuses = none ∨ data.statuses = some []) :
    (statusCheckSubmit serialized fmt w (.parsed data)).page.statusList = noSubmissions ∧
      ¬ isHidden (statusCheckSubmit serialized fmt w (.parsed data)).page.statusResults ∧
      (statusCheckSubmit serialized fmt w (.parsed data)).page.refreshStatus = w.page.refreshStatus ∧
      (statusCheckSubmit serialized fmt w (.parsed data)).page.checkListings = w.page.checkListings ∧
      (isHidden w.page.refreshStatus →
        isHidden (statusCheckSubmit serialized fmt w (.parsed data)).page.refreshStatus) ∧
      (isHidden w.page.checkListings →
        isHidden (statusCheckSubmit serialized fmt w (.parsed data)).page.checkListings) := by
  rcases h with h | h <;>
    · simp only [statusCheckSubmit]
      rw [h]
      exact ⟨rfl, not_isHidden_classListRemove _, rfl, rfl, id, id⟩

/-- C6: in the business-submit, CSV-upload and check-listings handlers the
generic alert is shown exactly when the exchange failed in transport or
parsing; after such a failure the page, the triggered clicks and events and
the pending timers are as before, and after a parsed response whose status
is not `success` the whole world is as before. -/
theorem failure_handling (w : World) :
    (∀ x : Exchange BusinessResponse,
        (genericAlert ∈ alertsShown w (businessDataSubmit w x) ↔ x = .failure) ∧
        (x = .failure → (businessDataSubmit w x).page = w.page ∧
          (businessDataSubmit w x).triggered = w.triggered ∧
          (businessDataSubmit w x).timers = w.timers) ∧
        (∀ data, x = .parsed data → data.status ≠ .str "success".toList →
          businessDataSubmit w x = w)) ∧
      (∀ x : Exchange CsvResponse,
        (genericAlert ∈ alertsShown w (csvUploadSubmit w x) ↔ x = .failure) ∧
        (x = .failure → (csvUploadSubmit w x).page = w.page ∧
          (csvUploadSubmit w x).triggered = w.triggered ∧
          (csvUploadSubmit w x).timers = w.timers) ∧
        (∀ data, x = .parsed data → data.status ≠ .str "success".toList →
          csvUploadSubmit w x = w)) ∧
      (∀ x : Exchange ListingsResponse,
        (genericAlert ∈ alertsShown w (checkListingsClick w x) ↔ x = .failure) ∧
        (x = .failure → (checkListingsClick w x).page = w.page ∧
          (checkListingsClick w x).triggered = w.triggered ∧
          (checkListingsClick w x).timers = w.timers) ∧
        (∀ data, x = .parsed data → data.status ≠ .str "success".toList →
          checkListingsClick w x = w)) := by
  refine ⟨?_, ?_, ?_⟩
  · intro x
    cases x with
    | failure =>
      refine ⟨?_, fun _ => ⟨rfl, rfl, rfl⟩, ?_⟩
      · simp [businessDataSubmit, alertsShown_catchBlock]
      · intro data h
        cases h
    | parsed data =>
      refine ⟨?_, ?_, ?_⟩
      · by_cases hs : data.status = .str "success".toList
        · rw [businessDataSubmit_alerts w data hs]
          simp [genericAlert]
        · rw [businessDataSubmit_other w data hs, alertsShown_self]
          simp
      · intro h
        cases h
      · intro d hd hs
        cases hd
        exact businessDataSubmit_other w data hs
  · intro x
    cases x with
    | failure =>
      refine ⟨?_, fun _ => ⟨rfl, rfl, rfl⟩, ?_⟩
      · simp [csvUploadSubmit, alertsShown_catchBlock]
      · intro data h
        cases h
    | parsed data =>
      refine ⟨?_, ?_, ?_⟩
      · by_cases hs : data.status = .str "success".toList
        · rw [csvUploadSubmit_alerts w data hs]
          simp [genericAlert]
        · rw [csvUploadSubmit_other w data hs, alertsShown_self]
          simp
      · intro h
        cases h
      · intro d hd hs
        cases hd
        exact csvUploadSubmit_other w data hs
  · intro x
    cases x with
    | failure =>
      refine ⟨?_, fun _ => ⟨rfl, rfl, rfl⟩, ?_⟩
      · simp [checkListingsClick, alertsShown_catchBlock]
      · intro data h
        cases h
    | parsed data =>
      refine ⟨?_, ?_, ?_⟩
      · by_cases hs : data.status = .str "success".toList
        · rw [checkListingsClick_alerts w data hs]
          simp [genericAlert]
        · rw [checkListingsClick_other w data hs, alertsShown_self]
          simp
      · intro h
        cases h
      · intro d hd hs
        cases hd
        exact checkListingsClick_other w data hs

theorem checkListingsClicks_timers (xs : List (Exchange ListingsResponse)) (w : World)
    (hxs : ∀ x ∈ xs, ∃ data, x = .parsed data ∧ data.status = .str "success".toList) :
    (checkListingsClicks w xs).timers
      = w.timers ++ List.replicate xs.length
          { delay := 10000, action := Action.submitStatusCheck } := by
  induction xs generalizing w with
  | nil => simp [checkListingsClicks]
  | cons x xs ih =>
    obtain ⟨data, rfl, hs⟩ := hxs x (List.mem_cons_self _ _)
    have hrest : ∀ y ∈ xs, ∃ data, y = .parsed data ∧ data.status = .str "success".toList :=
      fun y hy => hxs y (List.mem_cons_of_mem _ hy)
    have := ih (checkListingsClick w (.parsed data)) hrest
    simp only [checkListingsClicks, List.foldl_cons] at this ⊢
    rw [this, checkListingsClick_timers w data hs, List.append_assoc]
    rfl

/-- C7: a click on check-listings whose response reports `success` appends
exactly one pending timer, with a delay of 10000 ms and the re-dispatch of
the status-check submit event as its action, and keeps the timers already
pending; so two such clicks leave two more pending timers and `n` such
clicks leave `n` more. -/
theorem checkListings_schedules (w : World) :
    (∀ data : ListingsResponse, data.status = .str "success".toList →
        (checkListingsClick w (.parsed data)).timers
          = w.timers ++ [{ delay := 10000, action := Action.submitStatusCheck }]) ∧
      (∀ d1 d2 : ListingsResponse, d1.status = .str "success".toList →
        d2.status = .str "success".toList →
        (checkListingsClick (checkListingsClick w (.parsed d1)) (.parsed d2)).timers
          = w.timers ++ [{ delay := 10000, action := Action.submitStatusCheck },
              { delay := 10000, action := Action.submitStatusCheck }]) ∧
      (∀ xs : List (Exchange ListingsResponse),
        (∀ x ∈ xs, ∃ data, x = .parsed data ∧ data.status = .str "success".toList) →
        (checkListingsClicks w xs).timers
          = w.timers ++ List.replicate xs.length
              { delay := 10000, action := Action.submitStatusCheck } ∧
        (checkListingsClicks w xs).timers.length = w.timers.length + xs.length) := by
  refine ⟨fun data h => checkListingsClick_timers w data h, ?_, ?_⟩
  · intro d1 d2 h1 h2
    rw [checkListingsClick_timers _ d2 h2, checkListingsClick_timers w d1 h1, List.append_assoc]
    rfl
  · intro xs hxs
    have h := checkListingsClicks_timers xs w hxs
    refine ⟨h, ?_⟩
    rw [h]
    simp

/-- C10, as amended: for a non-empty `statuses` list the text of the status
list is, whatever it held before, the text the render loop builds from the
emptied list: every record, in list order, appends its one block to what
`innerHTML` reads back; so handling the same response again gives the same
text; when reading back leaves the blocks rendered so far as they are, the
text is the blocks of the records in list order, one per record; the class
of a block is `status-success` for the status `success`, `status-pending`
for `pending` and `status-error` for every other value. -/
theorem statusList_rendering (serialized : Str → Str) (fmt : JsVal → Str) (w : World)
    (data : StatusResponse) (rs : List StatusRecord) (h : data.statuses = some rs)
    (hne : rs ≠ []) :
    (statusCheckSubmit serialized fmt w (.parsed data)).page.statusList
        = renderAll serialized fmt rs ∧
      (statusCheckSubmit serialized fmt (statusCheckSubmit serialized fmt w (.parsed data))
          (.parsed data)).page.statusList
        = (statusCheckSubmit serialized fmt w (.parsed data)).page.statusList ∧
      renderAll serialized fmt [] = [] ∧
      (∀ (before : List StatusRecord) (last : StatusRecord),
        renderAll serialized fmt (before ++ [last])
          = readInnerHTML serialized (renderAll serialized fmt before) ++ renderBlock fmt last) ∧
      ((∀ i, i < rs.length →
          readInnerHTML serialized (((rs.take i).map (renderBlock fmt)).flatten)
            = ((rs.take i).map (renderBlock fmt)).flatten) →
        (statusCheckSubmit serialized fmt w (.parsed data)).page.statusList
          = (rs.map (renderBlock fmt)).flatten) ∧
      (∀ r : StatusRecord, ∃ rest : Str,
        renderBlock fmt r = indent 28 ++ ("<div class=\"status-item ".toList ++
          (statusClass r.status ++ ("\">".toList ++ rest)))) ∧
      (∀ r : StatusRecord,
        (r.status = .str "success".toList → statusClass r.status = "status-success".toList) ∧
        (r.status = .str "pending".toList → statusClass r.status = "status-pending".toList) ∧
        (r.status ≠ .str "success".toList → r.status ≠ .str "pending".toList →
          statusClass r.status = "status-error".toList)) := by
  cases rs with
  | nil => exact absurd rfl hne
  | cons r rs =>
    refine ⟨statusList_of_records serialized fmt w data r rs h, ?_, rfl,
      renderAll_concat serialized fmt, ?_, fun r => ⟨_, rfl⟩, ?_⟩
    · rw [statusList_of_records serialized fmt _ data r rs h,
        statusList_of_records serialized fmt w data r rs h]
    · intro hfix
      rw [statusList_of_records serialized fmt w data r rs h]
      exact renderAll_fixed serialized fmt (r :: rs) hfix
    · intro r
      refine ⟨?_, ?_, ?_⟩
      · intro hs
        rw [hs]
        decide
      · intro hs
        rw [hs]
        decide
      · intro h1 h2
        unfold statusClass
        rw [if_neg h1, if_neg h2]

/-! ### Occurrences in a block -/

theorem clashes_not_isPrefix (n s r : Str) (h : clashes n s = true) : ¬ n <+: s ++ r := by
  induction n generalizing s with
  | nil => cases s <;> simp [clashes] at h
  | cons a n ih =>
    cases s with
    | nil => simp [clashes] at h
    | cons c s =>
      simp only [clashes, Bool.or_eq_true, bne_iff_ne, ne_eq] at h
      intro hp
      rw [List.cons_append, List.cons_prefix_cons] at hp
      rcases h with h | h
      · exact h hp.1
      · exact ih s h hp.2

theorem neverStarts_skip (n s r : Str) (h : neverStarts n s = true) :
    n <:+: s ++ r ↔ n <:+: r := by
  induction s with
  | nil => simp
  | cons c s ih =>
    simp only [neverStarts, Bool.and_eq_true] at h
    rw [List.cons_append, List.infix_cons_iff, ih h.2]
    constructor
    · rintro (hp | hi)
      · exact absurd hp (clashes_not_isPrefix n (c :: s) r h.1)
      · exact hi
    · exact Or.inr

theorem neverStarts_of_not_mem (c : Char) (n s : Str) (h : c ∉ s) :
    neverStarts (c :: n) s = true := by
  induction s with
  | nil => rfl
  | cons a s ih =>
    have ha : c ≠ a := fun e => h (e ▸ List.mem_cons_self _ _)
    have hs : c ∉ s := fun hm => h (List.mem_cons_of_mem _ hm)
    simp [neverStarts, clashes, ha, ih hs]

theorem not_infix_flatten (n : Str) (hn : n ≠ []) (segs : List Str)
    (h : ∀ s ∈ segs, neverStarts n s = true) : ¬ n <:+: segs.flatten := by
  induction segs with
  | nil => simpa using hn
  | cons s segs ih =>
    rw [List.flatten_cons, neverStarts_skip n s _ (h s (List.mem_cons_self _ _))]
    exact ih (fun t ht => h t (List.mem_cons_of_mem _ ht))

theorem infix_flatten_skip (n : Str) (segs : List Str) (rest : Str)
    (h : ∀ s ∈ segs, neverStarts n s = true) : n <:+: segs.flatten ++ rest ↔ n <:+: rest := by
  induction segs with
  | nil => simp
  | cons s segs ih =>
    rw [List.flatten_cons, List.append_assoc,
      neverStarts_skip n s _ (h s (List.mem_cons_self _ _))]
    exact ih (fun t ht => h t (List.mem_cons_of_mem _ ht))

theorem renderBlock_segments (fmt : JsVal → Str) (r : StatusRecord) :
    renderBlock fmt r = (segmentsBefore r).flatten ++
      (listingLabel r.listing_status ++ (segmentsAfter fmt r).flatten) := by
  unfold renderBlock segmentsBefore segmentsAfter listingStatus lastChecked updatedLine
    lastCheckedSegments updatedSegments
  by_cases h1 : r.last_checked.truthy = true <;> by_cases h2 : r.updated_at.truthy = true <;>
    simp only [h1, h2, if_true, if_false, List.flatten_cons, List.flatten_nil, List.append_assoc,
      List.append_nil, List.nil_append, List.cons_append, List.flatten_append, Bool.false_eq_true]

theorem neverStarts_of_head (n s : Str) (hn : n.head? = some '<') (h : '<' ∉ s) :
    neverStarts n s = true := by
  cases n with
  | nil => simp at hn
  | cons a n =>
    simp only [List.head?_cons, Option.some.injEq] at hn
    subst hn
    exact neverStarts_of_not_mem _ n s h

theorem statusClass_plain (v : JsVal) : '<' ∉ statusClass v := by
  unfold statusClass
  split
  · decide
  · split <;> decide

theorem localeString_plain (fmt : JsVal → Str) (h : ∀ v, '<' ∉ fmt v) (v : JsVal) :
    '<' ∉ localeString fmt v := by
  cases v <;> first | exact h _ | (simp only [localeString]; decide)

theorem segmentsBefore_clear (n : Str) (fmt : JsVal → Str) (r : StatusRecord)
    (hn : n.head? = some '<') (hp : plainText fmt r)
    (hc : ∀ s ∈ templateConstants, neverStarts n s = true) :
    ∀ s ∈ segmentsBefore r, neverStarts n s = true := by
  intro s hs
  simp only [segmentsBefore, List.mem_cons, List.mem_singleton, List.not_mem_nil, or_false] at hs
  rcases hs with rfl | rfl | rfl | rfl | rfl | rfl | rfl | rfl | rfl | rfl | rfl | rfl | rfl | rfl
  all_goals first
    | exact neverStarts_of_head n _ hn (statusClass_plain _)
    | exact neverStarts_of_head n _ hn hp.1
    | exact neverStarts_of_head n _ hn hp.2.1
    | exact hc _ (by simp [templateConstants])

theorem segmentsAfter_clear (n : Str) (fmt : JsVal → Str) (r : StatusRecord)
    (hn : n.head? = some '<') (hp : plainText fmt r)
    (hc : ∀ s ∈ templateConstants, neverStarts n s = true)
    (hsub : neverStarts n submittedMark = true)
    (hlc : r.last_checked.truthy = true → neverStarts n lastCheckedMark = true)
    (hupd : r.updated_at.truthy = true → neverStarts n updatedMark = true) :
    ∀ s ∈ segmentsAfter fmt r, neverStarts n s = true := by
  intro s hs
  have hdate : ∀ v, neverStarts n (localeString fmt v) = true :=
    fun v => neverStarts_of_head n _ hn (localeString_plain fmt hp.2.2 v)
  simp only [segmentsAfter, List.mem_append, List.mem_cons, List.mem_singleton,
    List.not_mem_nil, or_false] at hs
  rcases hs with h1 | hs | h3 | hs | h5
  · rcases h1 with rfl | rfl <;> exact hc _ (by simp [templateConstants])
  · unfold lastCheckedSegments at hs
    by_cases ht : r.last_checked.truthy = true
    · rw [if_pos ht] at hs
      simp only [List.mem_cons, List.mem_singleton, List.not_mem_nil, or_false] at hs
      rcases hs with rfl | rfl | rfl | rfl
      · exact hlc ht
      · exact hc _ (by simp [templateConstants])
      · exact hdate _
      · exact hc _ (by simp [templateConstants])
    · rw [if_neg ht] at hs
      simp at hs
  · rcases h3 with rfl | rfl | rfl | rfl | rfl | rfl
    · exact hc _ (by simp [templateConstants])
    · exact hsub
    · exact hc _ (by simp [templateConstants])
    · exact hdate _
    · exact hc _ (by simp [templateConstants])
    · exact hc _ (by simp [templateConstants])
  · unfold updatedSegments at hs
    by_cases ht : r.updated_at.truthy = true
    · rw [if_pos ht] at hs
      simp only [List.mem_cons, List.mem_singleton, List.not_mem_nil, or_false] at hs
      rcases hs with rfl | rfl | rfl | rfl
      · exact hupd ht
      · exact hc _ (by simp [templateConstants])
      · exact hdate _
      · exact hc _ (by simp [templateConstants])
    · rw [if_neg ht] at hs
      simp at hs
  · rcases h5 with rfl | rfl | rfl <;> exact hc _ (by simp [templateConstants])

theorem not_infix_block (n : Str) (fmt : JsVal → Str) (r : StatusRecord)
    (hn : n.head? = some '<') (hp : plainText fmt r)
    (hc : ∀ s ∈ templateConstants, neverStarts n s = true)
    (hlabel : neverStarts n (listingLabel r.listing_status) = true)
    (hsub : neverStarts n submittedMark = true)
    (hlc : r.last_checked.truthy = true → neverStarts n lastCheckedMark = true)
    (hupd : r.updated_at.truthy = true → neverStarts n updatedMark = true) :
    ¬ n <:+: renderBlock fmt r := by
  rw [renderBlock_segments, infix_flatten_skip n _ _ (segmentsBefore_clear n fmt r hn hp hc),
    neverStarts_skip n _ _ hlabel]
  apply not_infix_flatten n _ _ (segmentsAfter_clear n fmt r hn hp hc hsub hlc hupd)
  intro h
  rw [h] at hn
  simp at hn

theorem label_infix_block (fmt : JsVal → Str) (r : StatusRecord) :
    listingLabel r.listing_status <:+: renderBlock fmt r := by
  rw [renderBlock_segments]
  exact ⟨_, _, (List.append_assoc _ _ _)⟩

theorem listingLabel_cases (v : JsVal) :
    listingLabel v = liveLabel ∨ listingLabel v = potentialLabel ∨
      listingLabel v = notFoundLabel := by
  unfold listingLabel
  split
  · exact Or.inl rfl
  · split
    · exact Or.inr (Or.inl rfl)
    · exact Or.inr (Or.inr rfl)

theorem labelsIn_block (fmt : JsVal → Str) (r : StatusRecord) (hp : plainText fmt r) :
    labelsIn (renderBlock fmt r) = [listingLabel r.listing_status] := by
  have hin := label_infix_block fmt r
  have hout : ∀ l ∈ [liveLabel, potentialLabel, notFoundLabel],
      l ≠ listingLabel r.listing_status → ¬ l <:+: renderBlock fmt r := by
    intro l hl hne
    have hcases := listingLabel_cases r.listing_status
    simp only [List.mem_cons, List.mem_singleton, List.not_mem_nil, or_false] at hl
    apply not_infix_block l fmt r _ hp
    · rcases hl with rfl | rfl | rfl <;> decide
    · rcases hl with rfl | rfl | rfl <;> rcases hcases with h | h | h <;>
        first
          | exact absurd h.symm hne
          | (rw [h]; decide)
    · rcases hl with rfl | rfl | rfl <;> decide
    · rcases hl with rfl | rfl | rfl <;> intro _ <;> decide
    · rcases hl with rfl | rfl | rfl <;> intro _ <;> decide
    · rcases hl with rfl | rfl | rfl <;> rfl
  unfold labelsIn
  rcases listingLabel_cases r.listing_status with h | h | h
  · rw [h] at hin hout ⊢
    have h2 := hout potentialLabel (by simp) (by decide)
    have h3 := hout notFoundLabel (by simp) (by decide)
    simp [List.filter, hin, h2, h3]
  · rw [h] at hin hout ⊢
    have h1 := hout liveLabel (by simp) (by decide)
    have h3 := hout notFoundLabel (by simp) (by decide)
    simp [List.filter, hin, h1, h3]
  · rw [h] at hin hout ⊢
    have h1 := hout liveLabel (by simp) (by decide)
    have h2 := hout potentialLabel (by simp) (by decide)
    simp [List.filter, hin, h1, h2]

theorem infix_skip_left (n a t : Str) (h : n <:+: t) : n <:+: a ++ t := by
  obtain ⟨u, v, e⟩ := h
  exact ⟨a ++ u, v, by rw [← e]; simp only [List.append_assoc]⟩

theorem infix_head (n x : Str) : n <:+: n ++ x := ⟨[], x, by simp⟩

theorem infix_head_append (n x y : Str) : n <:+: (n ++ x) ++ y := ⟨[], x ++ y, by simp⟩

theorem mark_infix_block (fmt : JsVal → Str) (r : StatusRecord) :
    submittedMark <:+: renderBlock fmt r ∧
      (r.last_checked.truthy = true → lastCheckedMark <:+: renderBlock fmt r) ∧
      (r.updated_at.truthy = true → updatedMark <:+: renderBlock fmt r) := by
  refine ⟨?_, ?_, ?_⟩
  · unfold renderBlock
    iterate 17 apply infix_skip_left
    exact infix_head _ _
  · intro h
    unfold renderBlock lastChecked
    rw [if_pos h]
    iterate 15 apply infix_skip_left
    exact infix_head_append _ _ _
  · intro h
    unfold renderBlock updatedLine
    rw [if_pos h]
    iterate 18 apply infix_skip_left
    apply infix_skip_left _ [' ']
    iterate 3 apply infix_skip_left
    exact infix_head_append _ _ _

theorem invalid_date_infix_block (fmt : JsVal → Str) (r : StatusRecord)
    (hc : r.created_at = .undefined) :
    submittedMark ++ (' ' :: "Invalid Date<br>".toList) <:+: renderBlock fmt r := by
  unfold renderBlock
  rw [hc]
  iterate 17 apply infix_skip_left
  exact ⟨[], indent 32 ++ (updatedLine fmt r.updated_at ++
    (indent 28 ++ ("</div>".toList ++ indent 24))), by simp [localeString]⟩

theorem truthy_present (v : JsVal) (h : v.truthy = true) : v.present := by
  intro e
  rw [e] at h
  exact absurd h (by decide)

/-- C4, as amended: the block of a record contains the label chosen by its
`listing_status`, the green one for exactly `live`, the orange one for
exactly `potential` and the red one for every other value, an absent one
included; and when the interpolated texts of the record hold no `<`, the
chosen label is the only one of the three that occurs in the block. -/
theorem listing_label_in_block (fmt : JsVal → Str) (r : StatusRecord) :
    listingLabel r.listing_status <:+: renderBlock fmt r ∧
      (r.listing_status = .str "live".toList → listingLabel r.listing_status = liveLabel) ∧
      (r.listing_status = .str "potential".toList →
        listingLabel r.listing_status = potentialLabel) ∧
      (r.listing_status ≠ .str "live".toList → r.listing_status ≠ .str "potential".toList →
        listingLabel r.listing_status = notFoundLabel) ∧
      (plainText fmt r → labelsIn (renderBlock fmt r) = [listingLabel r.listing_status]) := by
  refine ⟨label_infix_block fmt r, ?_, ?_, ?_, labelsIn_block fmt r⟩
  · intro h
    rw [h]
    decide
  · intro h
    rw [h]
    decide
  · intro h1 h2
    unfold listingLabel
    rw [if_neg h1, if_neg h2]

/-- C4, counterexample: a record whose `listing_status` is `potential` and
whose URL text is the markup of the green label renders a block in which two
of the three labels occur, the green one although the status is not `live`. -/
theorem listing_label_not_unique :
    markupRecord.listing_status ≠ .str "live".toList ∧
      liveLabel <:+: renderBlock fixedFormat markupRecord ∧
      potentialLabel <:+: renderBlock fixedFormat markupRecord ∧
      liveLabel ≠ potentialLabel := by
  refine ⟨by decide, ?_, ?_, by decide⟩
  · unfold renderBlock
    exact ⟨indent 28 ++ ("<div class=\"status-item ".toList ++
      (statusClass markupRecord.status ++ ("\">".toList ++ (indent 32 ++
      "<strong>URL:</strong> ".toList)))), _, by simp only [List.append_assoc]; rfl⟩
  · exact label_infix_block fixedFormat markupRecord

/-- C9, as amended: the block of a record always contains the submitted
line, also when `created_at` is absent (the date then reads
`Invalid Date`); it contains the updated line when `updated_at` is truthy and
the last-checked line when `last_checked` is truthy; and when the
interpolated texts of the record hold no `<`, the updated line occurs only
when `updated_at` is truthy, hence present, and the last-checked line only
when `last_checked` is truthy, hence present. -/
theorem timestamp_lines (fmt : JsVal → Str) (r : StatusRecord) :
    submittedMark <:+: renderBlock fmt r ∧
      (r.created_at = .undefined →
        submittedMark ++ (' ' :: "Invalid Date<br>".toList) <:+: renderBlock fmt r) ∧
      (r.updated_at.truthy = true → updatedMark <:+: renderBlock fmt r) ∧
      (r.last_checked.truthy = true → lastCheckedMark <:+: renderBlock fmt r) ∧
      (plainText fmt r →
        (updatedMark <:+: renderBlock fmt r →
          r.updated_at.truthy = true ∧ r.updated_at.present) ∧
        (lastCheckedMark <:+: renderBlock fmt r →
          r.last_checked.truthy = true ∧ r.last_checked.present)) := by
  obtain ⟨hsub, hlc, hupd⟩ := mark_infix_block fmt r
  refine ⟨hsub, ?_, hupd, hlc, ?_⟩
  · exact invalid_date_infix_block fmt r
  · intro hp
    have hlab : ∀ n : Str, neverStarts n liveLabel = true → neverStarts n potentialLabel = true →
        neverStarts n notFoundLabel = true →
        neverStarts n (listingLabel r.listing_status) = true := by
      intro n h1 h2 h3
      rcases listingLabel_cases r.listing_status with h | h | h <;> rw [h] <;> assumption
    constructor
    · intro hin
      by_cases ht : r.updated_at.truthy = true
      · exact ⟨ht, truthy_present _ ht⟩
      · exact absurd hin (not_infix_block updatedMark fmt r rfl hp (by decide)
          (hlab _ (by decide) (by decide) (by decide)) (by decide) (fun _ => by decide)
          (fun h => absurd h ht))
    · intro hin
      by_cases ht : r.last_checked.truthy = true
      · exact ⟨ht, truthy_present _ ht⟩
      · exact absurd hin (not_infix_block lastCheckedMark fmt r rfl hp (by decide)
          (hlab _ (by decide) (by decide) (by decide)) (by decide) (fun h => absurd h ht)
          (fun _ => by decide))

/-- C9, counterexample: a record with none of the three timestamps, so with
`created_at` absent, renders a block that contains the submitted line. -/
theorem submitted_line_always :
    ¬ emptyRecord.created_at.present ∧ ¬ emptyRecord.updated_at.present ∧
      ¬ emptyRecord.last_checked.present ∧
      submittedMark <:+: renderBlock fixedFormat emptyRecord := by
  refine ⟨?_, ?_, ?_, (mark_infix_block fixedFormat emptyRecord).1⟩ <;>
    simp [JsVal.present, emptyRecord]

/-! ### Class names -/

theorem marker_eq : " active".toList = ' ' :: "active".toList := rfl

theorem isPrefix_of_append_sep (c : Char) (x a b : Str) (hc : c ∉ x)
    (h : x <+: a ++ c :: b) : x <+: a := by
  induction a generalizing x with
  | nil =>
    cases x with
    | nil => exact List.prefix_refl _
    | cons y x =>
      rw [List.nil_append, List.cons_prefix_cons] at h
      exact absurd (h.1 ▸ List.mem_cons_self _ _) hc
  | cons y a ih =>
    cases x with
    | nil => exact List.nil_prefix
    | cons z x =>
      rw [List.cons_append, List.cons_prefix_cons] at h
      rw [List.cons_prefix_cons]
      exact ⟨h.1, ih x (fun hm => hc (List.mem_cons_of_mem _ hm)) h.2⟩

theorem replaceFirst_absent (pat rep w : Str) (hpat : pat ≠ []) (h : ¬ pat <:+: w) :
    replaceFirst pat rep w = w := by
  induction w with
  | nil =>
    cases pat with
    | nil => exact absurd rfl hpat
    | cons a pat => rfl
  | cons c w ih =>
    unfold replaceFirst
    have hp : ¬ pat <+: c :: w := fun hp => h hp.isInfix
    have hb : pat.isPrefixOf (c :: w) = false := by
      rw [Bool.eq_false_iff]
      intro hb
      exact hp (List.isPrefixOf_iff_prefix.mp hb)
    rw [hb]
    simp only [Bool.false_eq_true, if_false]
    rw [ih (fun hi => h ((List.infix_cons_iff).mpr (Or.inr hi)))]

theorem marker_not_within (w : Str) (h : ¬ "active".toList <:+: w) :
    ¬ " active".toList <:+: w := by
  intro hi
  apply h
  have h1 : "active".toList <:+: " active".toList := ⟨[' '], [], rfl⟩
  exact List.IsInfix.trans h1 hi

theorem replaceFirst_marker_absent (w : Str) (h : ¬ "active".toList <:+: w) :
    replaceFirst " active".toList [] w = w :=
  replaceFirst_absent _ _ w (by decide) (marker_not_within w h)

theorem replaceFirst_marker_append (w : Str) (h : ¬ "active".toList <:+: w) :
    replaceFirst " active".toList [] (w ++ " active".toList) = w := by
  induction w with
  | nil => decide
  | cons c w ih =>
    rw [List.cons_append]
    unfold replaceFirst
    have hb : (" active".toList).isPrefixOf (c :: (w ++ " active".toList)) = false := by
      rw [Bool.eq_false_iff]
      intro hb
      have hp := List.isPrefixOf_iff_prefix.mp hb
      rw [marker_eq, List.cons_prefix_cons] at hp
      have hw : "active".toList <+: w :=
        isPrefix_of_append_sep ' ' _ w _ (by decide) hp.2
      exact h ((List.infix_cons_iff).mpr (Or.inr hw.isInfix))
    rw [hb]
    simp only [Bool.false_eq_true, if_false]
    rw [ih (fun hi => h ((List.infix_cons_iff).mpr (Or.inr hi)))]

theorem splitWhere_ne_nil (p : Char → Bool) (s : Str) : splitWhere p s ≠ [] := by
  induction s with
  | nil => simp [splitWhere]
  | cons c cs ih =>
    unfold splitWhere
    split
    · simp
    · split <;> simp

theorem splitWhere_cons (p : Char → Bool) (c : Char) (cs : Str) :
    splitWhere p (c :: cs) =
      if p c then [] :: splitWhere p cs
      else
        match splitWhere p cs with
        | [] => [[c]]
        | q :: qs => (c :: q) :: qs := rfl

theorem splitWhere_append_sep (p : Char → Bool) (c : Char) (hc : p c = true) (a b : Str) :
    splitWhere p (a ++ c :: b) = splitWhere p a ++ splitWhere p b := by
  induction a with
  | nil =>
    rw [List.nil_append, splitWhere_cons, if_pos hc]
    rfl
  | cons x a ih =>
    rw [List.cons_append, splitWhere_cons p x (a ++ c :: b), splitWhere_cons p x a]
    by_cases hx : p x = true
    · rw [if_pos hx, if_pos hx, ih]
      rfl
    · rw [if_neg hx, if_neg hx, ih]
      cases hs : splitWhere p a with
      | nil => exact absurd hs (splitWhere_ne_nil p a)
      | cons q qs => rfl

theorem splitWhere_head_isPrefix (p : Char → Bool) (s q : Str) (qs : List Str)
    (h : splitWhere p s = q :: qs) : q <+: s := by
  induction s generalizing q qs with
  | nil =>
    simp only [splitWhere, List.cons.injEq] at h
    rw [← h.1]
  | cons c cs ih =>
    unfold splitWhere at h
    by_cases hc : p c = true
    · rw [if_pos hc] at h
      simp only [List.cons.injEq] at h
      rw [← h.1]
      exact List.nil_prefix
    · rw [if_neg hc] at h
      cases hs : splitWhere p cs with
      | nil => exact absurd hs (splitWhere_ne_nil p cs)
      | cons r rs =>
        rw [hs] at h
        simp only [List.cons.injEq] at h
        rw [← h.1, List.cons_prefix_cons]
        exact ⟨rfl, ih r rs hs⟩

theorem splitWhere_mem_occurs (p : Char → Bool) (s t : Str) (h : t ∈ splitWhere p s) :
    t <:+: s := by
  induction s generalizing t with
  | nil =>
    simp only [splitWhere, List.mem_singleton] at h
    rw [h]
  | cons c cs ih =>
    unfold splitWhere at h
    by_cases hc : p c = true
    · rw [if_pos hc] at h
      rcases List.mem_cons.mp h with rfl | h
      · exact List.nil_infix
      · exact (List.infix_cons_iff).mpr (Or.inr (ih t h))
    · rw [if_neg hc] at h
      cases hs : splitWhere p cs with
      | nil => exact absurd hs (splitWhere_ne_nil p cs)
      | cons r rs =>
        rw [hs] at h ih
        rcases List.mem_cons.mp h with rfl | h
        · have hr := splitWhere_head_isPrefix p cs r rs hs
          exact (List.cons_prefix_cons.mpr ⟨rfl, hr⟩).isInfix
        · exact (List.infix_cons_iff).mpr (Or.inr (ih t (List.mem_cons_of_mem _ h)))

theorem classTokens_mem_occurs (w t : Str) (h : t ∈ classTokens w) : t <:+: w :=
  splitWhere_mem_occurs _ w t (List.mem_filter.mp h).1

theorem classTokens_append_marker (w : Str) :
    classTokens (w ++ " active".toList) = classTokens w ++ ["active".toList] := by
  rw [marker_eq]
  unfold classTokens
  rw [splitWhere_append_sep _ ' ' (by decide), List.filter_append]
  congr 1

/-! ### The loops over live collections -/

theorem length_updateAt (f : Element → Element) (k : Nat) (d : Doc) :
    (updateAt f k d).length = d.length := by
  induction d generalizing k with
  | nil => cases k <;> rfl
  | cons e es ih =>
    cases k with
    | zero => rfl
    | succ k => simp [updateAt, ih]

theorem getElem?_updateAt (f : Element → Element) (k : Nat) (d : Doc) (j : Nat) :
    (updateAt f k d)[j]? = if j = k then (d[j]?).map f else d[j]? := by
  induction d generalizing k j with
  | nil => cases k <;> simp [updateAt]
  | cons e es ih =>
    cases k with
    | zero =>
      cases j with
      | zero => simp [updateAt]
      | succ j => simp [updateAt]
    | succ k =>
      cases j with
      | zero => simp [updateAt]
      | succ j => simp [updateAt, ih]

theorem collectionItem_bound (cls : Str) (d : Doc) (i k : Nat)
    (h : collectionItem cls d i = some k) : i ≤ k ∧ k < d.length := by
  induction d generalizing i k with
  | nil => simp [collectionItem] at h
  | cons e es ih =>
    unfold collectionItem at h
    by_cases hc : hasClass cls e = true
    · rw [if_pos hc] at h
      cases i with
      | zero =>
        simp only [Option.some.injEq] at h
        subst h
        simp
      | succ m =>
        simp only [Option.map_eq_some'] at h
        obtain ⟨k2, hk2, rfl⟩ := h
        have := ih m k2 hk2
        simp only [List.length_cons]
        omega
    · rw [if_neg hc] at h
      simp only [Option.map_eq_some'] at h
      obtain ⟨k2, hk2, rfl⟩ := h
      have := ih i k2 hk2
      simp only [List.length_cons]
      omega

/-- The loop does not depend on its fuel once the fuel covers the elements
left: `d.length` turns are enough from the index `0`. -/
theorem forEachLive_fuel (cls : Str) (f : Element → Element) (fuel1 fuel2 i : Nat) (d : Doc)
    (h1 : d.length ≤ fuel1 + i) (h2 : d.length ≤ fuel2 + i) :
    forEachLive cls f fuel1 i d = forEachLive cls f fuel2 i d := by
  induction fuel1 generalizing fuel2 i d with
  | zero =>
    have hn : collectionItem cls d i = none := by
      cases hk : collectionItem cls d i with
      | none => rfl
      | some k =>
        have := collectionItem_bound cls d i k hk
        omega
    cases fuel2 with
    | zero => rfl
    | succ n => simp [forEachLive, hn]
  | succ n ih =>
    cases fuel2 with
    | zero =>
      have hn : collectionItem cls d i = none := by
        cases hk : collectionItem cls d i with
        | none => rfl
        | some k =>
          have := collectionItem_bound cls d i k hk
          omega
      simp [forEachLive, hn]
    | succ m =>
      simp only [forEachLive]
      cases hk : collectionItem cls d i with
      | none => rfl
      | some k =>
        simp only
        apply ih
        · rw [length_updateAt]
          omega
        · rw [length_updateAt]
          omega

theorem applyFrom_of_none (cls : Str) (f : Element → Element) (d : Doc) (i : Nat)
    (h : collectionItem cls d i = none) : applyFrom cls f i d = d := by
  induction d generalizing i with
  | nil => rfl
  | cons e es ih =>
    unfold collectionItem at h
    unfold applyFrom
    by_cases hc : hasClass cls e = true
    · rw [if_pos hc] at h ⊢
      cases i with
      | zero => simp at h
      | succ m =>
        simp only [Option.map_eq_none'] at h
        simp only
        rw [ih m h]
    · rw [if_neg hc] at h ⊢
      simp only [Option.map_eq_none'] at h
      rw [ih i h]

theorem applyFrom_updateAt (cls : Str) (f : Element → Element) (P : Element → Prop)
    (hclass : ∀ e, P e → hasClass cls e = true → hasClass cls (f e) = true)
    (d : Doc) (i k : Nat) (hd : ∀ e ∈ d, P e) (h : collectionItem cls d i = some k) :
    applyFrom cls f (i + 1) (updateAt f k d) = applyFrom cls f i d := by
  induction d generalizing i k with
  | nil => simp [collectionItem] at h
  | cons e es ih =>
    have he := hd e (List.mem_cons_self _ _)
    have hes : ∀ a ∈ es, P a := fun a ha => hd a (List.mem_cons_of_mem _ ha)
    unfold collectionItem at h
    by_cases hc : hasClass cls e = true
    · rw [if_pos hc] at h
      cases i with
      | zero =>
        simp only [Option.some.injEq] at h
        subst h
        simp only [updateAt, applyFrom, hclass e he hc, hc, if_true, Nat.zero_add]
      | succ m =>
        simp only [Option.map_eq_some'] at h
        obtain ⟨k2, hk2, rfl⟩ := h
        simp only [updateAt, applyFrom, hc, if_true]
        rw [ih m k2 hes hk2]
    · rw [if_neg hc] at h
      simp only [Option.map_eq_some'] at h
      obtain ⟨k2, hk2, rfl⟩ := h
      simp only [updateAt, applyFrom, hc, if_false, Bool.false_eq_true]
      rw [ih i k2 hes hk2]

theorem mem_updateAt_item (cls : Str) (f : Element → Element) (P : Element → Prop)
    (hP : ∀ e, P e → hasClass cls e = true → P (f e))
    (d : Doc) (i k : Nat) (hd : ∀ e ∈ d, P e) (h : collectionItem cls d i = some k) :
    ∀ e ∈ updateAt f k d, P e := by
  induction d generalizing i k with
  | nil => simp [collectionItem] at h
  | cons a es ih =>
    have ha := hd a (List.mem_cons_self _ _)
    have hes : ∀ e ∈ es, P e := fun e he => hd e (List.mem_cons_of_mem _ he)
    unfold collectionItem at h
    by_cases hc : hasClass cls a = true
    · rw [if_pos hc] at h
      cases i with
      | zero =>
        simp only [Option.some.injEq] at h
        subst h
        intro e he
        simp only [updateAt, List.mem_cons] at he
        rcases he with rfl | he
        · exact hP a ha hc
        · exact hes e he
      | succ m =>
        simp only [Option.map_eq_some'] at h
        obtain ⟨k2, hk2, rfl⟩ := h
        intro e he
        simp only [updateAt, List.mem_cons] at he
        rcases he with rfl | he
        · exact ha
        · exact ih m k2 hes hk2 e he
    · rw [if_neg hc] at h
      simp only [Option.map_eq_some'] at h
      obtain ⟨k2, hk2, rfl⟩ := h
      intro e he
      simp only [updateAt, List.mem_cons] at he
      rcases he with rfl | he
      · exact ha
      · exact ih i k2 hes hk2 e he

theorem forEachLive_eq_applyFrom (cls : Str) (f : Element → Element) (P : Element → Prop)
    (hP : ∀ e, P e → hasClass cls e = true → P (f e))
    (hclass : ∀ e, P e → hasClass cls e = true → hasClass cls (f e) = true)
    (fuel i : Nat) (d : Doc) (hd : ∀ e ∈ d, P e) (hfuel : d.length ≤ fuel + i) :
    forEachLive cls f fuel i d = applyFrom cls f i d := by
  induction fuel generalizing i d with
  | zero =>
    have hn : collectionItem cls d i = none := by
      cases hk : collectionItem cls d i with
      | none => rfl
      | some k =>
        have := collectionItem_bound cls d i k hk
        omega
    simp only [forEachLive]
    exact (applyFrom_of_none cls f d i hn).symm
  | succ n ih =>
    simp only [forEachLive]
    cases hk : collectionItem cls d i with
    | none => exact (applyFrom_of_none cls f d i hk).symm
    | some k =>
      simp only
      rw [ih (i + 1) (updateAt f k d) (mem_updateAt_item cls f P hP d i k hd hk)
        (by rw [length_updateAt]; omega)]
      exact applyFrom_updateAt cls f P hclass d i k hd hk

theorem applyFrom_zero (cls : Str) (f : Element → Element) (d : Doc) :
    applyFrom cls f 0 d = d.map (fun e => if hasClass cls e then f e else e) := by
  induction d with
  | nil => rfl
  | cons e es ih =>
    unfold applyFrom
    by_cases hc : hasClass cls e = true
    · simp only [hc, if_true, List.map_cons, ih]
    · simp only [hc, if_false, List.map_cons, ih, Bool.false_eq_true]

theorem forEachLive_eq_map (cls : Str) (f : Element → Element) (P : Element → Prop)
    (hP : ∀ e, P e → hasClass cls e = true → P (f e))
    (hclass : ∀ e, P e → hasClass cls e = true → hasClass cls (f e) = true)
    (d : Doc) (hd : ∀ e ∈ d, P e) :
    forEachLive cls f d.length 0 d = d.map (fun e => if hasClass cls e then f e else e) := by
  rw [forEachLive_eq_applyFrom cls f P hP hclass d.length 0 d hd (by omega), applyFrom_zero]

/-! ### Elements under `openTab` -/

theorem hasClass_iff (cls : Str) (e : Element) :
    hasClass cls e = true ↔ cls ∈ classTokens e.className := by
  simp [hasClass]

theorem hasClass_congr (cls : Str) (e x : Element)
    (h : cls ∈ classTokens x.className ↔ cls ∈ classTokens e.className) :
    hasClass cls x = hasClass cls e := by
  unfold hasClass
  exact decide_eq_decide.mpr h

theorem markedOnce_base (c : Str) (h : markedOnce c) :
    ¬ "active".toList <:+: replaceFirst " active".toList [] c ∧
      (c = replaceFirst " active".toList [] c ∨
        c = replaceFirst " active".toList [] c ++ " active".toList) := by
  obtain ⟨w, hw, rfl | rfl⟩ := h
  · rw [replaceFirst_marker_absent _ hw]
    exact ⟨hw, Or.inl rfl⟩
  · rw [replaceFirst_marker_append _ hw]
    exact ⟨hw, Or.inr rfl⟩

theorem mem_classTokens_marker (cls c : Str) (hne : cls ≠ "active".toList) :
    cls ∈ classTokens (c ++ " active".toList) ↔ cls ∈ classTokens c := by
  rw [classTokens_append_marker, List.mem_append, List.mem_singleton]
  exact ⟨fun h => h.resolve_right hne, Or.inl⟩

theorem hasClass_mark (cls : Str) (x : Element) (hne : cls ≠ "active".toList) :
    hasClass cls (mark x) = hasClass cls x :=
  hasClass_congr cls x (mark x) (mem_classTokens_marker cls x.className hne)

theorem hasClass_active_mark (x : Element) : hasClass "active".toList (mark x) = true := by
  rw [hasClass_iff]
  show "active".toList ∈ classTokens (x.className ++ " active".toList)
  rw [classTokens_append_marker]
  simp

theorem hasClass_settle (cls : Str) (e : Element) (hwf : wellFormed e)
    (hne : cls ≠ "active".toList) : hasClass cls (settle e) = hasClass cls e := by
  apply hasClass_congr
  show cls ∈ classTokens (if hasClass "tablinks".toList e then
    replaceFirst " active".toList [] e.className else e.className) ↔ _
  by_cases htl : hasClass "tablinks".toList e = true
  · rw [if_pos htl]
    obtain ⟨_, hc | hc⟩ := markedOnce_base e.className (hwf htl)
    · rw [← hc]
    · conv_rhs => rw [hc]
      exact (mem_classTokens_marker cls _ hne).symm
  · rw [if_neg htl]

theorem settle_clean (e : Element) (hwf : wellFormed e)
    (htl : hasClass "tablinks".toList e = true) :
    ¬ "active".toList <:+: (settle e).className := by
  show ¬ "active".toList <:+: (if hasClass "tablinks".toList e then
    replaceFirst " active".toList [] e.className else e.className)
  rw [if_pos htl]
  exact (markedOnce_base e.className (hwf htl)).1

theorem tablinks_ne : "tablinks".toList ≠ "active".toList := by decide

theorem tabcontent_ne : "tabcontent".toList ≠ "active".toList := by decide

theorem settleAt_id (k t : Option Nat) (j : Nat) (e : Element) :
    (settleAt k t j e).id = e.id := by
  unfold settleAt
  by_cases hk : k = some j <;> by_cases ht : t = some j <;> simp [hk, ht, mark, reveal, settle]

theorem settleAt_display (k t : Option Nat) (j : Nat) (e : Element) :
    (settleAt k t j e).display =
      if k = some j then "block".toList
      else if hasClass "tabcontent".toList e then "none".toList else e.display := by
  unfold settleAt
  by_cases hk : k = some j <;> by_cases ht : t = some j <;>
    simp only [hk, ht, if_true, if_false, mark, reveal, settle]

theorem settleAt_className (k t : Option Nat) (j : Nat) (e : Element) :
    (settleAt k t j e).className =
      if t = some j then (settle e).className ++ " active".toList
      else (settle e).className := by
  unfold settleAt
  by_cases hk : k = some j <;> by_cases ht : t = some j <;>
    simp only [hk, ht, if_true, if_false, mark, reveal, settle]

theorem hasClass_settleAt (cls : Str) (k t : Option Nat) (j : Nat) (e : Element)
    (hwf : wellFormed e) (hne : cls ≠ "active".toList) :
    hasClass cls (settleAt k t j e) = hasClass cls e := by
  rw [← hasClass_settle cls e hwf hne]
  apply hasClass_congr
  rw [settleAt_className]
  by_cases ht : t = some j
  · rw [if_pos ht]
    exact mem_classTokens_marker cls _ hne
  · rw [if_neg ht]

theorem hasClass_active_settleAt (k t : Option Nat) (j : Nat) (e : Element)
    (hwf : wellFormed e) (htl : hasClass "tablinks".toList e = true) :
    hasClass "active".toList (settleAt k t j e) = true ↔ t = some j := by
  rw [hasClass_iff, settleAt_className]
  by_cases ht : t = some j
  · rw [if_pos ht, classTokens_append_marker]
    simp [ht]
  · rw [if_neg ht]
    constructor
    · intro hm
      exact absurd (classTokens_mem_occurs _ _ hm) (settle_clean e hwf htl)
    · intro h
      exact absurd h ht

theorem wellFormed_settleAt (k t : Option Nat) (j : Nat) (e : Element) (hwf : wellFormed e) :
    wellFormed (settleAt k t j e) := by
  intro htl
  rw [hasClass_settleAt _ k t j e hwf tablinks_ne] at htl
  rw [settleAt_className]
  refine ⟨(settle e).className, settle_clean e hwf htl, ?_⟩
  by_cases ht : t = some j
  · rw [if_pos ht]
    exact Or.inr rfl
  · rw [if_neg ht]
    exact Or.inl rfl

theorem settle_settleAt_className (k t : Option Nat) (j : Nat) (e : Element)
    (hwf : wellFormed e) (ht : t = some j → hasClass "tablinks".toList e = true) :
    (settle (settleAt k t j e)).className = (settle e).className := by
  show (if hasClass "tablinks".toList (settleAt k t j e) then
    replaceFirst " active".toList [] (settleAt k t j e).className
    else (settleAt k t j e).className) = _
  rw [hasClass_settleAt _ k t j e hwf tablinks_ne, settleAt_className]
  by_cases htl : hasClass "tablinks".toList e = true
  · rw [if_pos htl]
    have hclean := settle_clean e hwf htl
    by_cases hj : t = some j
    · rw [if_pos hj, replaceFirst_marker_append _ hclean]
    · rw [if_neg hj, replaceFirst_marker_absent _ hclean]
  · rw [if_neg htl]
    have hj : ¬ t = some j := fun h => htl (ht h)
    rw [if_neg hj]

theorem settleAt_idempotent (k t : Option Nat) (j : Nat) (e : Element)
    (hwf : wellFormed e) (ht : t = some j → hasClass "tablinks".toList e = true) :
    settleAt k t j (settleAt k t j e) = settleAt k t j e := by
  have hid : (settleAt k t j (settleAt k t j e)).id = (settleAt k t j e).id :=
    settleAt_id k t j (settleAt k t j e)
  have hcls : (settleAt k t j (settleAt k t j e)).className = (settleAt k t j e).className := by
    rw [settleAt_className k t j (settleAt k t j e), settle_settleAt_className k t j e hwf ht,
      settleAt_className k t j e]
  have hdis : (settleAt k t j (settleAt k t j e)).display = (settleAt k t j e).display := by
    rw [settleAt_display k t j (settleAt k t j e), hasClass_settleAt _ k t j e hwf tabcontent_ne,
      settleAt_display k t j e]
    by_cases hk : k = some j
    · simp only [hk, if_true]
    · by_cases hc : hasClass "tabcontent".toList e = true
      · simp only [hk, hc, if_true, if_false]
      · simp only [hk, hc, if_false, Bool.false_eq_true]
  generalize settleAt k t j (settleAt k t j e) = x at hid hcls hdis
  generalize settleAt k t j e = y at hid hcls hdis
  cases x
  cases y
  simp only at hid hcls hdis
  rw [hid, hcls, hdis]

/-! ### The closed form of `openTab` -/

theorem getElementById_ids (n : Str) (d1 d2 : Doc)
    (h : d1.map (fun e => e.id) = d2.map (fun e => e.id)) :
    getElementById d1 n = getElementById d2 n := by
  induction d1 generalizing d2 with
  | nil =>
    cases d2 with
    | nil => rfl
    | cons b d2 => simp at h
  | cons a d1 ih =>
    cases d2 with
    | nil => simp at h
    | cons b d2 =>
      simp only [List.map_cons, List.cons.injEq] at h
      unfold getElementById
      rw [h.1, ih d2 h.2]

theorem ids_mapIdx (h : Nat → Element → Element) (hid : ∀ j e, (h j e).id = e.id) (d : Doc) :
    (d.mapIdx h).map (fun e => e.id) = d.map (fun e => e.id) := by
  apply List.ext_getElem?
  intro j
  simp only [List.getElem?_map, List.getElem?_mapIdx]
  cases d[j]? with
  | none => rfl
  | some e => simp [hid]

theorem ids_map (h : Element → Element) (hid : ∀ e, (h e).id = e.id) (d : Doc) :
    (d.map h).map (fun e => e.id) = d.map (fun e => e.id) := by
  rw [List.map_map]
  apply List.map_congr_left
  intro e _
  exact hid e

theorem wellFormed_unmark (e : Element) (hwf : wellFormed e)
    (htl : hasClass "tablinks".toList e = true) : wellFormed (unmark e) := by
  intro _
  exact ⟨_, (markedOnce_base e.className (hwf htl)).1, Or.inl rfl⟩

theorem hasClass_unmark (e : Element) (hwf : wellFormed e)
    (htl : hasClass "tablinks".toList e = true) :
    hasClass "tablinks".toList (unmark e) = true := by
  rw [← htl, ← hasClass_settle _ e hwf tablinks_ne]
  apply hasClass_congr
  show _ ∈ classTokens (replaceFirst " active".toList [] e.className) ↔
    _ ∈ classTokens (if hasClass "tablinks".toList e then
      replaceFirst " active".toList [] e.className else e.className)
  rw [if_pos htl]

theorem loops_eq_settle (d : Doc) (hwf : ∀ e ∈ d, wellFormed e) :
    forEachLive "tablinks".toList unmark (forEachLive "tabcontent".toList hide d.length 0 d).length
      0 (forEachLive "tabcontent".toList hide d.length 0 d) = d.map settle := by
  have h1 : forEachLive "tabcontent".toList hide d.length 0 d
      = d.map (fun e => if hasClass "tabcontent".toList e then hide e else e) :=
    forEachLive_eq_map _ hide (fun _ => True) (fun _ _ _ => trivial) (fun _ _ h => h) d
      (fun _ _ => trivial)
  rw [h1]
  have hwf1 : ∀ e ∈ d.map (fun e => if hasClass "tabcontent".toList e then hide e else e),
      wellFormed e := by
    intro e he
    obtain ⟨a, ha, rfl⟩ := List.mem_map.mp he
    by_cases hc : hasClass "tabcontent".toList a = true
    · rw [if_pos hc]
      exact hwf a ha
    · rw [if_neg hc]
      exact hwf a ha
  rw [forEachLive_eq_map _ unmark wellFormed wellFormed_unmark hasClass_unmark _ hwf1,
    List.map_map]
  apply List.map_congr_left
  intro e _
  show (if hasClass "tablinks".toList
      (if hasClass "tabcontent".toList e = true then hide e else e) = true
    then unmark (if hasClass "tabcontent".toList e = true then hide e else e)
    else (if hasClass "tabcontent".toList e = true then hide e else e)) = settle e
  by_cases hc : hasClass "tabcontent".toList e = true <;>
    by_cases hl : hasClass "tablinks".toList e = true
  · have hl2 : hasClass "tablinks".toList (hide e) = true := hl
    rw [if_pos hc, if_pos hl2]
    simp only [hc, hl, if_true, settle, unmark, hide]
  · have hl2 : ¬ hasClass "tablinks".toList (hide e) = true := hl
    rw [if_pos hc, if_neg hl2]
    simp only [hc, hl, if_true, if_false, settle, hide, Bool.false_eq_true]
  · rw [if_neg hc, if_pos hl]
    simp only [hc, hl, if_true, if_false, settle, unmark, Bool.false_eq_true]
  · rw [if_neg hc, if_neg hl]
    simp only [hc, hl, if_false, settle, Bool.false_eq_true]

theorem settleAt_none : settleAt none none = fun _ e => settle e := by
  funext j e
  simp [settleAt]

theorem getElem?_openTab (k t j : Nat) (d : Doc) :
    (updateAt mark t (updateAt reveal k (d.map settle)))[j]?
      = (d.mapIdx (settleAt (some k) (some t)))[j]? := by
  simp only [getElem?_updateAt, List.getElem?_map, List.getElem?_mapIdx]
  cases d[j]? with
  | none => by_cases h1 : j = t <;> by_cases h2 : j = k <;> simp [h1, h2]
  | some e =>
    by_cases h1 : j = t
    · subst h1
      by_cases h2 : j = k
      · subst h2
        simp [settleAt]
      · simp [settleAt, h2, Ne.symm h2]
    · by_cases h2 : j = k
      · subst h2
        simp [settleAt, h1, Ne.symm h1]
      · simp [settleAt, h1, h2, Ne.symm h1, Ne.symm h2]

theorem getElem?_openTab_error (k j : Nat) (d : Doc) :
    (updateAt reveal k (d.map settle))[j]? = (d.mapIdx (settleAt (some k) none))[j]? := by
  simp only [getElem?_updateAt, List.getElem?_map, List.getElem?_mapIdx]
  cases d[j]? with
  | none => by_cases h2 : j = k <;> simp [h2]
  | some e =>
    by_cases h2 : j = k
    · subst h2
      simp [settleAt]
    · simp [settleAt, h2, Ne.symm h2]

theorem openTab_closed (d : Doc) (t : Nat) (n : Str) (hwf : ∀ e ∈ d, wellFormed e) :
    openTab d t n =
      match getElementById d n with
      | none => .error (d.mapIdx (settleAt none none))
      | some k =>
        if t < d.length then .ok (d.mapIdx (settleAt (some k) (some t)))
        else .error (d.mapIdx (settleAt (some k) none)) := by
  unfold openTab
  simp only
  rw [loops_eq_settle d hwf,
    getElementById_ids n (d.map settle) d (ids_map settle (fun _ => rfl) d)]
  cases hk : getElementById d n with
  | none =>
    simp only
    congr 1
    apply List.ext_getElem?
    intro j
    simp only [List.getElem?_map, List.getElem?_mapIdx, settleAt_none]
  | some k =>
    simp only [length_updateAt, List.length_map]
    by_cases ht : t < d.length
    · rw [if_pos ht, if_pos ht]
      congr 1
      exact List.ext_getElem? (fun j => getElem?_openTab k t j d)
    · rw [if_neg ht, if_neg ht]
      congr 1
      exact List.ext_getElem? (fun j => getElem?_openTab_error k j d)

/-! ### Tab switching -/

theorem getElem?_closed (K T : Option Nat) (d : Doc) (j : Nat) (x : Element)
    (h : (d.mapIdx (settleAt K T))[j]? = some x) :
    ∃ e, d[j]? = some e ∧ e ∈ d ∧ settleAt K T j e = x := by
  rw [List.getElem?_mapIdx] at h
  cases he : d[j]? with
  | none => rw [he] at h; simp at h
  | some e =>
    rw [he] at h
    simp only [Option.map_some', Option.some.injEq] at h
    exact ⟨e, rfl, List.mem_iff_getElem?.mpr ⟨j, he⟩, h⟩

theorem mapIdx_settleAt_idempotent (K T : Option Nat) (d : Doc) (hwf : ∀ e ∈ d, wellFormed e)
    (hT : ∀ j e, T = some j → d[j]? = some e → hasClass "tablinks".toList e = true) :
    (d.mapIdx (settleAt K T)).mapIdx (settleAt K T) = d.mapIdx (settleAt K T) := by
  apply List.ext_getElem?
  intro j
  simp only [List.getElem?_mapIdx]
  cases he : d[j]? with
  | none => rfl
  | some e =>
    simp only [Option.map_some', Option.some.injEq]
    exact settleAt_idempotent K T j e (hwf e (List.mem_iff_getElem?.mpr ⟨j, he⟩))
      (fun h => hT j e h he)

theorem wellFormed_closed (K T : Option Nat) (d : Doc) (hwf : ∀ e ∈ d, wellFormed e) :
    ∀ x ∈ d.mapIdx (settleAt K T), wellFormed x := by
  intro x hx
  obtain ⟨j, hj⟩ := List.mem_iff_getElem?.mp hx
  obtain ⟨e, _, he, rfl⟩ := getElem?_closed K T d j x hj
  exact wellFormed_settleAt K T j e (hwf e he)

theorem getElementById_closed (K T : Option Nat) (d : Doc) (n : Str) :
    getElementById (d.mapIdx (settleAt K T)) n = getElementById d n :=
  getElementById_ids n _ d (ids_mapIdx _ (settleAt_id K T) d)

/-- C2, as amended: in a document whose tab buttons have class names marked
at most once, after `openTab(evt, tabName)` with `tabName` the id of a
tab-content element and `evt.currentTarget` a tab button, the function
returns, exactly one tab-content element is visible, the one with the id
`tabName`, and exactly one tab button carries the class `active`, the
current target. -/
theorem openTab_exactly_one (d : Doc) (t k : Nat) (n : Str) (content target : Element)
    (hwf : ∀ e ∈ d, wellFormed e)
    (hk : getElementById d n = some k) (hkc : d[k]? = some content)
    (hcontent : hasClass "tabcontent".toList content = true)
    (ht : d[t]? = some target) (htarget : hasClass "tablinks".toList target = true) :
    ∃ d2, openTab d t n = .ok d2 ∧ d2.length = d.length ∧
      (∀ j e, d2[j]? = some e →
        ((hasClass "tabcontent".toList e = true ∧ visible e = true) ↔ j = k)) ∧
      (∀ j e, d2[j]? = some e →
        ((hasClass "tablinks".toList e = true ∧ hasClass "active".toList e = true) ↔ j = t)) := by
  have htlt : t < d.length := (List.getElem?_eq_some.mp ht).1
  refine ⟨d.mapIdx (settleAt (some k) (some t)), ?_, List.length_mapIdx, ?_, ?_⟩
  · rw [openTab_closed d t n hwf, hk]
    simp only
    rw [if_pos htlt]
  · intro j x hx
    obtain ⟨e, hje, he, rfl⟩ := getElem?_closed _ _ d j x hx
    rw [hasClass_settleAt _ _ _ j e (hwf e he) tabcontent_ne]
    unfold visible
    rw [settleAt_display]
    constructor
    · rintro ⟨hc, hv⟩
      by_contra hne
      have hne2 : ¬ some k = some j := fun h => hne (Option.some.inj h).symm
      rw [if_neg hne2, if_pos hc] at hv
      simp at hv
    · intro hjk
      subst hjk
      rw [hkc] at hje
      cases hje
      refine ⟨hcontent, ?_⟩
      rw [if_pos rfl]
      decide
  · intro j x hx
    obtain ⟨e, hje, he, rfl⟩ := getElem?_closed _ _ d j x hx
    rw [hasClass_settleAt _ _ _ j e (hwf e he) tablinks_ne]
    constructor
    · rintro ⟨hl, ha⟩
      have := (hasClass_active_settleAt _ _ j e (hwf e he) hl).mp ha
      exact (Option.some.inj this).symm
    · intro hjt
      subst hjt
      rw [ht] at hje
      cases hje
      exact ⟨htarget, (hasClass_active_settleAt _ _ j target (hwf target he) htarget).mpr rfl⟩

/-- C2, counterexample: with a second button whose class name is
`tablinks active active`, `openTab` on the first button with the id of the
tab-content element returns and leaves two tab buttons with the class
`active`: `replace` removes one marker only. -/
theorem openTab_two_active :
    getElementById twiceMarked "home".toList = some 0 ∧
      (twiceMarked[0]?).map (hasClass "tabcontent".toList) = some true ∧
      (twiceMarked[1]?).map (hasClass "tablinks".toList) = some true ∧
      openTab twiceMarked 1 "home".toList = .ok
        [ { id := "home".toList, className := "tabcontent".toList, display := "block".toList },
          { id := "b1".toList, className := "tablinks active".toList, display := [] },
          { id := "b2".toList, className := "tablinks active".toList, display := [] } ] ∧
      ((docAfter (openTab twiceMarked 1 "home".toList)).filter
        (fun e => hasClass "tablinks".toList e && hasClass "active".toList e)).length = 2 := by
  decide

/-- C8, as amended: in a document whose tab buttons have class names marked
at most once, and with `evt.currentTarget` a tab button or absent, a second
call `openTab(evt, tabName)` has the outcome of the first and leaves the
document as the first left it. -/
theorem openTab_idempotent (d : Doc) (t : Nat) (n : Str)
    (hwf : ∀ e ∈ d, wellFormed e)
    (ht : ∀ e, d[t]? = some e → hasClass "tablinks".toList e = true) :
    openTab (docAfter (openTab d t n)) t n = openTab d t n := by
  rw [openTab_closed d t n hwf]
  cases hk : getElementById d n with
  | none =>
    simp only [docAfter]
    rw [openTab_closed _ t n (wellFormed_closed _ _ d hwf), getElementById_closed, hk]
    simp only
    rw [mapIdx_settleAt_idempotent none none d hwf (fun j e h => by cases h)]
  | some k =>
    simp only
    by_cases htlt : t < d.length
    · rw [if_pos htlt]
      simp only [docAfter]
      rw [openTab_closed _ t n (wellFormed_closed _ _ d hwf), getElementById_closed, hk]
      simp only [List.length_mapIdx]
      rw [if_pos htlt, mapIdx_settleAt_idempotent (some k) (some t) d hwf]
      intro j e h hje
      cases h
      exact ht e hje
    · rw [if_neg htlt]
      simp only [docAfter]
      rw [openTab_closed _ t n (wellFormed_closed _ _ d hwf), getElementById_closed, hk]
      simp only [List.length_mapIdx]
      rw [if_neg htlt, mapIdx_settleAt_idempotent (some k) none d hwf (fun j e h => by cases h)]

/-- C8, counterexample: with a second button whose class name is
`tablinks active active`, one call on the first button leaves the second
button with the class name `tablinks active` and a second call leaves it
with `tablinks`, so the two outcomes differ. -/
theorem openTab_twice_differs :
    ((docAfter (openTab twiceMarked 1 "home".toList))[2]?).map (fun e => e.className)
        = some "tablinks active".toList ∧
      ((docAfter (openTab (docAfter (openTab twiceMarked 1 "home".toList)) 1
          "home".toList))[2]?).map (fun e => e.className) = some "tablinks".toList ∧
      openTab (docAfter (openTab twiceMarked 1 "home".toList)) 1 "home".toList
        ≠ openTab twiceMarked 1 "home".toList := by
  decide

/-! ### Instances at a page first loaded -/

/-- C3 at a page first loaded: a `success` response with the id `42`. -/
theorem businessDataSubmit_outcome_witness :
    ¬ isHidden (businessDataSubmit freshWorld
        (.parsed ⟨.str "success".toList, .str "42".toList⟩)).page.csvUploadSection ∧
      (businessDataSubmit freshWorld
        (.parsed ⟨.str "success".toList, .str "42".toList⟩)).page.business_id = "42".toList :=
  have h := (businessDataSubmit_outcome freshWorld
    ⟨.str "success".toList, .str "42".toList⟩).1 rfl
  ⟨h.1, h.2.2 _ rfl⟩

/-- C5 at a page first loaded: a response with an empty list. -/
theorem statusCheckSubmit_empty_witness :
    ((⟨some []⟩ : StatusResponse).statuses = none ∨
        (⟨some []⟩ : StatusResponse).statuses = some []) ∧
      (statusCheckSubmit exampleGetter fixedFormat freshWorld (.parsed ⟨some []⟩)).page.statusList
        = noSubmissions ∧
      isHidden (statusCheckSubmit exampleGetter fixedFormat freshWorld (.parsed ⟨some []⟩)).page.refreshStatus ∧
      isHidden (statusCheckSubmit exampleGetter fixedFormat freshWorld (.parsed ⟨some []⟩)).page.checkListings :=
  have h := statusCheckSubmit_empty exampleGetter fixedFormat freshWorld ⟨some []⟩ (Or.inr rfl)
  ⟨Or.inr rfl, h.1, h.2.2.2.2.1 (by decide), h.2.2.2.2.2 (by decide)⟩

/-- C6 at a page first loaded: a failed business submission shows the
generic alert and a refused CSV upload changes nothing. -/
theorem failure_handling_witness :
    genericAlert ∈ alertsShown freshWorld (businessDataSubmit freshWorld .failure) ∧
      csvUploadSubmit freshWorld (.parsed ⟨.str "error".toList, .undefined⟩) = freshWorld :=
  ⟨((failure_handling freshWorld).1 .failure).1.mpr rfl,
    ((failure_handling freshWorld).2.1 (.parsed ⟨.str "error".toList, .undefined⟩)).2.2
      _ rfl (by decide)⟩

/-- C7 at a page first loaded: two successful clicks leave two pending
timers. -/
theorem checkListings_schedules_witness :
    (checkListingsClicks freshWorld
        [.parsed ⟨.str "success".toList⟩, .parsed ⟨.str "success".toList⟩]).timers.length = 2 :=
  ((checkListings_schedules freshWorld).2.2
    [.parsed ⟨.str "success".toList⟩, .parsed ⟨.str "success".toList⟩]
    (by
      intro x hx
      simp only [List.mem_cons, List.mem_singleton, List.not_mem_nil, or_false, or_self] at hx
      exact ⟨_, hx, rfl⟩)).2

theorem exampleGetter_liveRecord :
    exampleGetter (renderBlock fixedFormat liveRecord) = renderBlock fixedFormat liveRecord := by
  decide!

/-- C10 at a page first loaded: a response with two records whose first
block reads back as it was written. -/
theorem statusList_rendering_witness :
    (⟨some [liveRecord, emptyRecord]⟩ : StatusResponse).statuses
        = some [liveRecord, emptyRecord] ∧
      [liveRecord, emptyRecord] ≠ [] ∧
      readInnerHTML exampleGetter (renderBlock fixedFormat liveRecord)
        = renderBlock fixedFormat liveRecord ∧
      (statusCheckSubmit exampleGetter fixedFormat freshWorld
          (.parsed ⟨some [liveRecord, emptyRecord]⟩)).page.statusList
        = renderBlock fixedFormat liveRecord ++ (renderBlock fixedFormat emptyRecord ++ []) :=
  have hread : readInnerHTML exampleGetter (renderBlock fixedFormat liveRecord)
      = renderBlock fixedFormat liveRecord := by
    unfold readInnerHTML
    rw [exampleGetter_liveRecord]
    split <;> simp_all
  ⟨rfl, by simp, hread,
    (statusList_rendering exampleGetter fixedFormat freshWorld
      ⟨some [liveRecord, emptyRecord]⟩ [liveRecord, emptyRecord] rfl (by simp)).2.2.2.2.1
      (by
        intro i hi
        have hi2 : i = 0 ∨ i = 1 := by
          simp only [List.length_cons, List.length_nil] at hi
          omega
        rcases hi2 with rfl | rfl
        · rfl
        · simpa using hread)⟩

/-- C10, counterexample: with two records, the first with a `&` in its URL,
the getter reads the first block back with `&amp;` for the `&`, so the text
assigned in the second turn, which is the text of the status list after the
handler, is not the two blocks one after the other. -/
theorem statusList_not_concatenation :
    (statusCheckSubmit exampleGetter fixedFormat freshWorld
        (.parsed ⟨some [queryRecord, emptyRecord]⟩)).page.statusList
      = exampleGetter (renderBlock fixedFormat queryRecord)
          ++ renderBlock fixedFormat emptyRecord ∧
    (exampleGetter (renderBlock fixedFormat queryRecord)).length
      = (renderBlock fixedFormat queryRecord).length + 4 ∧
    (statusCheckSubmit exampleGetter fixedFormat freshWorld
        (.parsed ⟨some [queryRecord, emptyRecord]⟩)).page.statusList
      ≠ ([queryRecord, emptyRecord].map (renderBlock fixedFormat)).flatten := by
  decide!

/-- C4 for a record of a live submission: the green label and no other. -/
theorem listing_label_in_block_witness :
    plainText fixedFormat liveRecord ∧
      labelsIn (renderBlock fixedFormat liveRecord) = [liveLabel] :=
  have hp : plainText fixedFormat liveRecord :=
    ⟨by decide, by decide, fun _ => by unfold fixedFormat; decide⟩
  ⟨hp, (listing_label_in_block fixedFormat liveRecord).2.2.2.2 hp⟩

/-- C9 for a record of a live submission without an update: no updated
line. -/
theorem timestamp_lines_witness :
    plainText fixedFormat liveRecord ∧
      ¬ updatedMark <:+: renderBlock fixedFormat liveRecord :=
  have hp : plainText fixedFormat liveRecord :=
    ⟨by decide, by decide, fun _ => by unfold fixedFormat; decide⟩
  ⟨hp, fun hin =>
    absurd (((timestamp_lines fixedFormat liveRecord).2.2.2.2 hp).1 hin).1 (by decide)⟩

/-- C2 at a page first loaded: a click on the second button for the tab
`status`. -/
theorem openTab_exactly_one_witness :
    (∀ e ∈ freshPage.doc, wellFormed e) ∧
      ∃ d2, openTab freshPage.doc 1 "status".toList = .ok d2 ∧ d2.length = freshPage.doc.length ∧
        (∀ j e, d2[j]? = some e →
          ((hasClass "tabcontent".toList e = true ∧ visible e = true) ↔ j = 3)) ∧
        (∀ j e, d2[j]? = some e →
          ((hasClass "tablinks".toList e = true ∧ hasClass "active".toList e = true) ↔ j = 1)) :=
  have hwf : ∀ e ∈ freshPage.doc, wellFormed e := by
    intro e he
    simp only [freshPage, List.mem_cons, List.mem_singleton, List.not_mem_nil, or_false] at he
    rcases he with rfl | rfl | rfl | rfl
    · exact fun _ => ⟨"tablinks".toList, by decide, Or.inr rfl⟩
    · exact fun _ => ⟨"tablinks".toList, by decide, Or.inl rfl⟩
    · exact fun h => absurd h (by decide)
    · exact fun h => absurd h (by decide)
  ⟨hwf, openTab_exactly_one freshPage.doc 1 3 "status".toList _ _ hwf (by decide) rfl (by decide)
    rfl (by decide)⟩

/-- C8 at a page first loaded: a second click on the second button changes
nothing more. -/
theorem openTab_idempotent_witness :
    openTab (docAfter (openTab freshPage.doc 1 "status".toList)) 1 "status".toList
      = openTab freshPage.doc 1 "status".toList :=
  openTab_idempotent freshPage.doc 1 "status".toList
    (by
      intro e he
      simp only [freshPage, List.mem_cons, List.mem_singleton, List.not_mem_nil, or_false] at he
      rcases he with rfl | rfl | rfl | rfl
      · exact fun _ => ⟨"tablinks".toList, by decide, Or.inr rfl⟩
      · exact fun _ => ⟨"tablinks".toList, by decide, Or.inl rfl⟩
      · exact fun h => absurd h (by decide)
      · exact fun h => absurd h (by decide))
    (by
      intro e he
      have : e = { id := "b2".toList, className := "tablinks".toList, display := [] } := by
        simpa [freshPage] using he.symm
      rw [this]
      decide)

end FormController
